import Mathlib

/-
A shallow embedding, in Lean 4, of the graph-compilation subsystem found in
this repository's `torch/_inductor` and `torch/_dynamo/optimizations`
modules, together with theorems settling the specification claims about it.

Embedded source files:
  * torch/_inductor/graph.py      (GraphLowering: call_function, run_node,
                                   cpp-wrapper eligibility checks)
  * torch/_inductor/config.py     (numeric thresholds and flags)
  * torch/_inductor/overrides.py  (fuse_conv_bn and its pattern guard)
  * torch/_dynamo/optimizations/training.py
                                  (aot_autograd compiler_fn,
                                   is_aot_autograd_safe_to_run,
                                   CudaGraphModule, find_input_mutations)

Python side effects are made explicit: heaps of tensor storages are modelled
as functions from storage ids to values, exceptions as `Except`, and counters
as explicit record state.  Registries that live in source files not included
in the excerpt (the lowering and decomposition tables of
torch/_inductor/lowering.py and torch/_decomp) are abstract parameters, and a
few helpers whose defining file is absent are modelled from the spec; each
such definition says so in its doc comment.
-/

namespace TorchSpec

/-! ## torch/_inductor/config.py (lines 34-47): thresholds and flags -/

/-- config.realize_reads_threshold = 4 ("control store vs recompute heuristic"). -/
def realize_reads_threshold : Nat := 4

/-- config.realize_acc_reads_threshold = 8 ("Threshold to prevent excessive
accumulation of ops in one buffer during lowering"). -/
def realize_acc_reads_threshold : Nat := 8

/-! ## GraphLowering.call_function (torch/_inductor/graph.py, lines 244-273)

The lowering registry (`lowerings`, built in torch/_inductor/lowering.py) and
the decomposition registry (`get_decompositions`, torch/_decomp) are not part
of the excerpt, so they are abstract parameters here: a partial map from
targets to (possibly failing) lowering functions, and a predicate saying
whether `get_decompositions([target])` is non-empty. -/

/-- An fx call_function target: either `operator.getitem` or an opaque
operator identity. -/
inductive Target
| getitem
| op (n : Nat)
deriving DecidableEq

/-- Argument values handed to a lowering function (opaque). -/
abbrev LowArg := Nat

/-- An exception raised from inside a lowering function (opaque payload). -/
abbrev LowErr := Nat

/-- The observable outcome of one `GraphLowering.call_function` dispatch. -/
inductive CFOutcome
/-- `operator.getitem` on a list/tuple: delegated to the base
`torch.fx.Interpreter.call_function`, no registry consulted. -/
| interpreted
/-- A registered lowering ran and returned a value. -/
| ok (v : Nat)
/-- `make_fallback(target)` registered an implicit eager fallback, which then
produced this value; no missing-operator error was raised. -/
| fallbackOk (v : Nat)
/-- `raise MissingOperatorWithDecomp(target, args, kwargs)`. -/
| missingWithDecomp (t : Target)
/-- `raise MissingOperatorWithoutDecomp(target, args, kwargs)`. -/
| missingWithoutDecomp (t : Target)
/-- `raise LoweringException(e, target, args, kwargs) from e`: the underlying
exception plus the offending node's target and arguments. -/
| loweringException (e : LowErr) (t : Target) (args : List LowArg)
deriving DecidableEq

/-- Shallow embedding of `GraphLowering.call_function` (graph.py 244-273).

`lowerings` is the registry; `hasDecomp t` models
`bool(get_decompositions([t]))`; `implicit_fallbacks` is
`config.implicit_fallbacks`; `fallbackFn` is the eager lowering that
`make_fallback` registers (modelled as total: it just calls the op eagerly);
`argsIsSeq` models `isinstance(args[0], (list, tuple))`. -/
def call_function
    (lowerings : Target → Option (List LowArg → Except LowErr Nat))
    (hasDecomp : Target → Bool)
    (implicit_fallbacks : Bool)
    (fallbackFn : Target → List LowArg → Nat)
    (target : Target) (argsIsSeq : Bool) (args : List LowArg) : CFOutcome :=
  if target = .getitem ∧ argsIsSeq then
    .interpreted
  else
    match lowerings target with
    | some f =>
      match f args with
      | .ok v => .ok v
      | .error e => .loweringException e target args
    | none =>
      if implicit_fallbacks then
        -- make_fallback(target) is called, then lowerings[target](*args) runs
        .fallbackOk (fallbackFn target args)
      else if hasDecomp target then
        .missingWithDecomp target
      else
        .missingWithoutDecomp target

/-! ## aot_autograd compiler_fn and is_aot_autograd_safe_to_run
(torch/_dynamo/optimizations/training.py, lines 33-115) -/

/-- The fields of `torch.fx.GraphModule` that the compiler function inspects:
`count_calls(gm.graph)` and the class names of `gm.modules()`. -/
structure FxGraphModule where
  /-- Modelled from the spec: `count_calls` (torch/_dynamo/utils.py, not in
  the excerpt) returns the number of call nodes in `gm.graph`. -/
  callCount : Nat
  /-- `submod.__class__.__name__` for each submodule yielded by
  `gm.modules()`. -/
  moduleClassNames : List String
deriving DecidableEq

/-- The `counters["aot_autograd"]` diagnostic counters. -/
structure AotCounters where
  total : Nat
  ok : Nat
  not_ok : Nat
deriving DecidableEq

/-- Result of `is_aot_autograd_safe_to_run` (training.py 90-115). -/
inductive SafeOutcome
/-- Returned True. -/
| safe
/-- `log.warning(msg)` then returned False. -/
| unsafeWarned (msg : String)
/-- `raise NotImplementedError(msg)`. -/
| raisedNotImplemented (msg : String)
deriving DecidableEq

/-- The message built by `raise_or_warn` (training.py 101-107). -/
def unsafe_reason_msg (reason : String) : String :=
  "Unable to use Aot Autograd because of presence of " ++ reason

/-- `raise_or_warn` (training.py 101-107): raise `NotImplementedError` when
`config.raise_on_unsafe_aot_autograd` is set, otherwise warn and return
False. -/
def raise_or_warn (raise_on_unsafe_aot_autograd : Bool) (reason : String) :
    SafeOutcome :=
  if raise_on_unsafe_aot_autograd then
    .raisedNotImplemented (unsafe_reason_msg reason)
  else
    .unsafeWarned (unsafe_reason_msg reason)

/-- `is_aot_autograd_safe_to_run` (training.py 90-115): scan `gm.modules()`
for a submodule whose class name is "LSTM"; the first hit triggers
`raise_or_warn("LSTM")`, otherwise return True. -/
def is_aot_autograd_safe_to_run (raise_on_unsafe_aot_autograd : Bool)
    (gm : FxGraphModule) : SafeOutcome :=
  if gm.moduleClassNames.contains "LSTM" then
    raise_or_warn raise_on_unsafe_aot_autograd "LSTM"
  else
    .safe

/-- The observable result of one `compiler_fn` invocation. -/
inductive CompileResult
/-- The tiny-graph early return: the input module, untouched. -/
| unchanged (gm : FxGraphModule)
/-- The fallback path: the input module is returned uncompiled. -/
| fallback (gm : FxGraphModule)
/-- `eval_frame.disable(aot_module_simplified(...))` succeeded. -/
| compiled (cg : Nat)
/-- An exception propagated out of `compiler_fn`. -/
| raised (msg : String)
deriving DecidableEq

/-- Shallow embedding of `aot_autograd(...)`'s inner `compiler_fn`
(training.py 34-87).  `aot_module_simplified` is abstract (`compileFn`).
The `normalize_ir` branch at line 53 is dead code: line 42 sets
`functorch.compile.config.use_functionalize = True` immediately before the
`not ...use_functionalize` test, so it is omitted.  Logging is not
modelled. -/
def compiler_fn (raise_on_unsafe_aot_autograd : Bool)
    (compileFn : FxGraphModule → Except String Nat)
    (force_compile_tiny_graphs : Bool)
    (gm : FxGraphModule) (c : AotCounters) : CompileResult × AotCounters :=
  if gm.callCount < 2 ∧ ¬force_compile_tiny_graphs then
    (.unchanged gm, c)  -- no point for tiny graphs
  else
    let c := { c with total := c.total + 1 }
    match is_aot_autograd_safe_to_run raise_on_unsafe_aot_autograd gm with
    | .raisedNotImplemented msg => (.raised msg, c)
    | .unsafeWarned _ =>
      (.fallback gm, { c with not_ok := c.not_ok + 1 })
    | .safe =>
      match compileFn gm with
      | .ok cg => (.compiled cg, { c with ok := c.ok + 1 })
      | .error msg => (.raised msg, { c with not_ok := c.not_ok + 1 })

/-! ## fuse_conv_bn (torch/_inductor/overrides.py, lines 623-695)

The claimed behaviour concerns the module/module pattern loop (lines 639-652):
for each graph node matching a (ConvNd, BatchNormNd) `call_module` pair, the
pair is fused only past four guards.  The per-candidate decision is embedded;
the weight arithmetic of `fuse_conv_bn_eval` (torch/nn/utils/fusion.py, not
in the excerpt) is floating-point and out of scope, so the fused module is
represented by the convolution it replaces. -/

/-- The fields of a convolution module read by the fusion guard. -/
structure ConvModule where
  training : Bool
deriving DecidableEq

/-- The fields of a batch-norm module read by the fusion guard. -/
structure BatchNormModule where
  training : Bool
  track_running_stats : Bool
deriving DecidableEq

/-- One candidate graph position for the module/module pattern: a node
`node` (the batch-norm `call_module`) whose first argument is `node.args[0]`
(the convolution `call_module`). -/
structure ConvBnCandidate where
  /-- `node.args[0]` and `node` are both `call_module` nodes naming modules
  present in `dict(gm.named_modules())`. -/
  bothCallModule : Bool
  /-- `type(modules[...]) is pattern[0]` and `is pattern[1]` for the
  (ConvNd, BatchNormNd) pattern under consideration. -/
  typesMatchPattern : Bool
  /-- `len(node.args[0].users)`: consumers of the convolution's output. -/
  convUsers : Nat
  conv : ConvModule
  bn : BatchNormModule
deriving DecidableEq

/-- Modelled from the spec: `matches_module_pattern`
(torch/fx/experimental/optimization.py, not in the excerpt) recognises a
`call_module` node pair whose module types match `(pattern[0], pattern[1])`.
-/
def matches_module_pattern (c : ConvBnCandidate) : Bool :=
  c.bothCallModule && c.typesMatchPattern

/-- The eval-mode test `all(not n.training for n in [conv, bn])`
(overrides.py line 645). -/
def conv_bn_eval_mode (c : ConvBnCandidate) : Bool :=
  !c.conv.training && !c.bn.training

/-- The per-candidate decision of `fuse_conv_bn`'s module/module loop
(overrides.py 640-652): `true` exactly when the candidate is rewritten into
a single fused convolution node (bn node erased, conv module replaced). -/
def fuse_conv_bn_fuses (c : ConvBnCandidate) : Bool :=
  matches_module_pattern c
    && !(1 < c.convUsers)            -- output of conv is used by other nodes
    && conv_bn_eval_mode c
    && c.bn.track_running_stats

/-- The rewrite applied to one candidate: `some fused` when the pair becomes
a single convolution node, `none` when the pair is left unfused.  The fused
module's folded weights are not modelled (floating point); structurally the
fused node is the convolution. -/
def fuse_conv_bn_rewrite (c : ConvBnCandidate) : Option ConvModule :=
  if fuse_conv_bn_fuses c then some c.conv else none

/-! ## Realize-or-defer (GraphLowering.run_node, torch/_inductor/graph.py,
lines 336-383)

The decision whether an intermediate `TensorBox` is materialized is taken in
`run_node` after lowering each fx node.  The `TensorBox` realization helpers
(`realize`, `realize_hint`, `mark_reuse`, `has_exceeded_max_reads`) live in
torch/_inductor/ir.py, which is not in the excerpt; they are modelled from
the spec below.  A box carries the accumulated logical read count of its
inlined expression, its IR kind, and whether it has been realized. -/

inductive IRKind
| pointwise
| reduction
| otherKind
deriving DecidableEq

/-- The realization-relevant state of a `TensorBox`. -/
structure TensorBoxModel where
  /-- Accumulated count of logical reads performed by the box's inlined
  expression. -/
  reads : Nat
  kind : IRKind
  realized : Bool
deriving DecidableEq

/-- Modelled from the spec: `TensorBox.realize` (ir.py, not in the excerpt)
forces the intermediate to materialize as a distinct buffer. -/
def boxRealize (b : TensorBoxModel) : TensorBoxModel :=
  { b with realized := true }

/-- Modelled from the spec: `TensorBox.realize_hint` (ir.py, not in the
excerpt) — "once a consumer belongs to an operator class known to need a
materialized (non-fused) input ... force materialization". -/
def realize_hint (b : TensorBoxModel) : TensorBoxModel :=
  boxRealize b

/-- Modelled from the spec: `TensorBox.mark_reuse(users)` (ir.py, not in the
excerpt) — "track, for each intermediate, an accumulated count of logical
reads; once a configurable threshold of distinct reads is exceeded ... force
materialization"; it acts only on intermediates reused by several users. -/
def mark_reuse (users : Nat) (b : TensorBoxModel) : TensorBoxModel :=
  if 1 < users ∧ realize_reads_threshold < b.reads then boxRealize b else b

/-- Modelled from the spec: `TensorBox.has_exceeded_max_reads` (ir.py, not in
the excerpt) — the guard of config.realize_acc_reads_threshold, the
"Threshold to prevent excessive accumulation of ops in one buffer during
lowering" (config.py 40-41). -/
def has_exceeded_max_reads (b : TensorBoxModel) : Bool :=
  realize_acc_reads_threshold < b.reads

/-- One consumer of the node being lowered (an element of `n.users`, which is
a dict, so the listed users are distinct). -/
structure NodeUser where
  /-- `user.target in needs_realized_inputs`. -/
  needs_realized : Bool
  /-- `user.op == "output"`. -/
  is_output : Bool
deriving DecidableEq

/-- The body of `run_node`'s per-user loop (graph.py 349-372): hint-realize
when the user needs realized inputs, realize when the user is a graph output
and the box is Pointwise/Reduction.  The `require_stride_order` call for
convolution/mm consumers (graph.py 362-369) only constrains layout and
concerns targets that are in `needs_realized_inputs` anyway, so it is not
modelled separately. -/
def run_node_user_step (r : TensorBoxModel) (u : NodeUser) : TensorBoxModel :=
  let r := if u.needs_realized then realize_hint r else r
  if u.is_output ∧ (r.kind = .pointwise ∨ r.kind = .reduction) then
    boxRealize r
  else r

/-- The realize-or-defer decision of `GraphLowering.run_node` (graph.py
345-383) applied to the lowered `result` of a node with users `users`. -/
def run_node_realize (result : TensorBoxModel) (users : List NodeUser) :
    TensorBoxModel :=
  let num_users := users.length  -- len(set(n.users)); users are distinct
  let result :=
    if 1 < num_users then
      mark_reuse users.length  -- result.mark_reuse(len(n.users))
        (users.foldl run_node_user_step result)
    else result
  -- Realize if the IRNode already has accumulated lots of reads
  if has_exceeded_max_reads result then realize_hint result else result

/-! ## Cpp-wrapper eligibility (torch/_inductor/graph.py: __init__ line 96,
disable_cpp_wrapper 147-157, register_buffer 158-165, checks 385-430)

`_can_use_cpp_wrapper` starts from `config.cpp_wrapper`;
`disable_cpp_wrapper(cond)` sets it to False and logs `cond`;
`init_wrapper_code` selects `CppWrapperCodeGen` only when the flag survives
`check_cpp_wrapper`.  All checks are total functions: ineligibility is never
an exception. -/

/-- The inputs the eligibility checks inspect. -/
structure CppWrapperEnv where
  /-- `sys.platform`. -/
  platform : String
  /-- `config.profiler_mark_wrapper_call`. -/
  profiler_mark_wrapper_call : Bool
  /-- `self.device_types`, the set of seen device type strings (listed
  without duplicates). -/
  device_types : List String
  /-- For each graph input, whether `value.get_dtype() != torch.float32`. -/
  input_not_fp32 : List Bool
  /-- For each graph output, whether it is an `ir.NoneAsConstantBuffer`. -/
  output_is_none_constant : List Bool
  /-- Whether `self.constants` is non-empty. -/
  has_constants : Bool
deriving DecidableEq

/-- The classification of a registered buffer used by
`check_buffer_for_cpp_wrapper` (graph.py 151-156). -/
structure RegisteredBuffer where
  /-- `isinstance(buffer, ir.ExternKernel)`. -/
  isExternKernel : Bool
  /-- `isinstance(buffer, ir.ComputedBuffer)` and
  `buffer.data.get_reduction_type()` is truthy. -/
  isReductionComputed : Bool
deriving DecidableEq

/-- The mutable eligibility state of a `GraphLowering`. -/
structure WrapperState where
  can_use_cpp_wrapper : Bool
  /-- The conditions logged by `disable_cpp_wrapper`, in order. -/
  disable_reasons : List String
deriving DecidableEq

/-- `GraphLowering.disable_cpp_wrapper(cond)` (graph.py 147-149). -/
def disable_cpp_wrapper (st : WrapperState) (cond : String) : WrapperState :=
  { can_use_cpp_wrapper := false,
    disable_reasons := st.disable_reasons ++ [cond] }

/-- `check_buffer_for_cpp_wrapper` (graph.py 151-156). -/
def check_buffer_for_cpp_wrapper (st : WrapperState) (b : RegisteredBuffer) :
    WrapperState :=
  let st := if b.isExternKernel then disable_cpp_wrapper st "ExternKernel" else st
  if b.isReductionComputed then disable_cpp_wrapper st "Reduction" else st

/-- `check_platform` (graph.py 385-387). -/
def check_platform (env : CppWrapperEnv) (st : WrapperState) : WrapperState :=
  if env.platform ≠ "linux" then disable_cpp_wrapper st "platform not linux"
  else st

/-- `check_profiler_mark_wrapper_call` (graph.py 389-391). -/
def check_profiler_mark_wrapper_call (env : CppWrapperEnv)
    (st : WrapperState) : WrapperState :=
  if env.profiler_mark_wrapper_call then
    disable_cpp_wrapper st "profiler not supported"
  else st

/-- `check_device_for_cpp_buffer` (graph.py 393-398): pass only when the
device-type set is exactly {"cpu"}. -/
def check_device_for_cpp_buffer (env : CppWrapperEnv) (st : WrapperState) :
    WrapperState :=
  match env.device_types with
  | [d] => if d = "cpu" then st else disable_cpp_wrapper st "device not CPU"
  | _ => disable_cpp_wrapper st "device not CPU"

/-- `check_input_for_cpp_buffer` (graph.py 400-403). -/
def check_input_for_cpp_buffer (env : CppWrapperEnv) (st : WrapperState) :
    WrapperState :=
  env.input_not_fp32.foldl
    (fun s bad => if bad then disable_cpp_wrapper s "inputs not FP32" else s)
    st

/-- `check_output_for_cpp_buffer` (graph.py 405-408). -/
def check_output_for_cpp_buffer (env : CppWrapperEnv) (st : WrapperState) :
    WrapperState :=
  env.output_is_none_constant.foldl
    (fun s bad =>
      if bad then disable_cpp_wrapper s "NoneAsConstantBuffer" else s)
    st

/-- `check_constant_for_cpp_buffer` (graph.py 410-412). -/
def check_constant_for_cpp_buffer (env : CppWrapperEnv) (st : WrapperState) :
    WrapperState :=
  if env.has_constants then disable_cpp_wrapper st "Constants" else st

/-- `check_cpp_wrapper` (graph.py 414-420): the six checks in source order. -/
def check_cpp_wrapper (env : CppWrapperEnv) (st : WrapperState) :
    WrapperState :=
  check_constant_for_cpp_buffer env
    (check_output_for_cpp_buffer env
      (check_input_for_cpp_buffer env
        (check_device_for_cpp_buffer env
          (check_profiler_mark_wrapper_call env
            (check_platform env st)))))

/-- Which codegen wrapper `init_wrapper_code` selects. -/
inductive WrapperChoice
| cppWrapperCodeGen
| pyWrapperCodeGen
deriving DecidableEq

/-- The whole eligibility pipeline of one `GraphLowering`: the flag starts
from `config.cpp_wrapper` (__init__ line 96), `register_buffer` applies the
per-buffer check while `config.cpp_wrapper` is set (158-160), and
`init_wrapper_code` (422-430) runs `check_cpp_wrapper` and selects the cpp
wrapper only if the flag is still True. -/
def init_wrapper_code (config_cpp_wrapper : Bool) (env : CppWrapperEnv)
    (bufs : List RegisteredBuffer) : WrapperChoice × WrapperState :=
  let st0 : WrapperState :=
    { can_use_cpp_wrapper := config_cpp_wrapper, disable_reasons := [] }
  if config_cpp_wrapper then
    let st1 := bufs.foldl check_buffer_for_cpp_wrapper st0
    let st2 := check_cpp_wrapper env st1
    if st2.can_use_cpp_wrapper then (.cppWrapperCodeGen, st2)
    else (.pyWrapperCodeGen, st2)
  else (.pyWrapperCodeGen, st0)

/-! ## CudaGraphModule (torch/_dynamo/optimizations/training.py, 245-306)

Tensor identity matters for this wrapper (copies, clones, aliasing), so
tensors are modelled as storage ids into an explicit heap of values; a
monotone fresh counter allocates new storages (every live storage id is below
the counter).  `clone` allocates a fresh storage carrying the source's value;
`copy_` writes the source's value into the destination storage.  The wrapped
`gm` is abstract: given the values of its inputs it yields the values its
tensor outputs take and the values it leaves in its input storages (in-place
mutation).  CUDA streams only order execution and are not modelled. -/

abbrev Storage := Nat
abbrev Val := Nat
abbrev Heap := Storage → Val

/-- Write one storage cell. -/
def writeCell (h : Heap) (s : Storage) (v : Val) : Heap :=
  fun s' => if s' = s then v else h s'

/-- Write a list of (storage, value) pairs left to right. -/
def writeMany (h : Heap) (ps : List (Storage × Val)) : Heap :=
  ps.foldl (fun h p => writeCell h p.1 p.2) h

/-- `for dst, src in zip(dsts, srcs): dst.copy_(src)` — each copy reads the
heap as it stands when that copy runs. -/
def copyInto (dsts srcs : List Storage) (h : Heap) : Heap :=
  match dsts, srcs with
  | d :: ds, s :: ss => copyInto ds ss (writeCell h d (h s))
  | _, _ => h

/-- `for i in idxs: args[i].copy_(statics[i])` (training.py 280-281,
293-294). -/
def copyBack (idxs : List Nat) (args statics : List Storage) (h : Heap) :
    Heap :=
  idxs.foldl
    (fun h i =>
      match args.get? i, statics.get? i with
      | some a, some s => writeCell h a (h s)
      | _, _ => h)
    h

/-- One position of the pytree `gm` returns: a tensor, or a non-tensor value
that `cloner` passes through unchanged. -/
inductive OutElem
| tensorElem (s : Storage)
| scalarElem (v : Val)
deriving DecidableEq

/-- The shape of one output position, fixed across calls of the same `gm`. -/
inductive OutSpec
| tensorOut
| scalarOut (v : Val)
deriving DecidableEq

/-- The abstract semantics of the wrapped `GraphModule`. -/
structure GmSemantics where
  /-- The shape of the returned pytree. -/
  outSpec : List OutSpec
  /-- Values taken by the tensor output positions, from input values
  (entries at scalar positions are ignored). -/
  outVals : List Val → List Val
  /-- Values left in the input storages after a run: in-place mutation the
  computation performs on its inputs. -/
  inMutVals : List Val → List Val

/-- The per-instance state of a `CudaGraphModule` (training.py 252-266). -/
structure CGMState where
  /-- Computed once by `find_input_mutations` before wrapping. -/
  mutated_inputs : List Nat
  warmed_up : Bool
  /-- `self.graph is not None`. -/
  graph : Bool
  static_inputs : List Storage
  static_outputs : List OutElem

/-- `CudaGraphModule(gm, mutated_inputs)` as just constructed. -/
def mkCudaGraphModule (mutated_inputs : List Nat) : CGMState :=
  { mutated_inputs := mutated_inputs, warmed_up := false, graph := false,
    static_inputs := [], static_outputs := [] }

/-- Which branch of `__call__` ran. -/
inductive CallPath
| warmupPath
| recordPath
| replayPath
deriving DecidableEq

/-- `tree_map(cloner, outs)`: clone each tensor leaf into a fresh storage
carrying its current value; pass non-tensors through (training.py 245-249,
282, 295). -/
def cloneOutputs : List OutElem → Heap → Nat → List OutElem × Heap × Nat
  | [], h, f => ([], h, f)
  | .tensorElem s :: rest, h, f =>
    let r := cloneOutputs rest (writeCell h f (h s)) (f + 1)
    (.tensorElem f :: r.1, r.2)
  | .scalarElem v :: rest, h, f =>
    let r := cloneOutputs rest h f
    (.scalarElem v :: r.1, r.2)

/-- `[x.clone() for x in args]` (training.py 286): fresh storages carrying
the argument values. -/
def cloneList : List Storage → Heap → Nat → List Storage × Heap × Nat
  | [], h, f => ([], h, f)
  | s :: rest, h, f =>
    let r := cloneList rest (writeCell h f (h s)) (f + 1)
    (f :: r.1, r.2)

/-- Capture-time allocation of the static outputs (training.py 288-289):
recording does not run the operations, so tensor outputs get fresh storages
whose values are only written by the subsequent replay. -/
def allocOutputs : List OutSpec → Nat → List OutElem × Nat
  | [], f => ([], f)
  | .tensorOut :: rest, f =>
    let r := allocOutputs rest (f + 1)
    (.tensorElem f :: r.1, r.2)
  | .scalarOut v :: rest, f =>
    let r := allocOutputs rest f
    (.scalarElem v :: r.1, r.2)

/-- The writes `graph.replay()` performs on the static output storages:
position-wise values of `vals` at tensor positions. -/
def replayOutWrites : List OutElem → List Val → List (Storage × Val)
  | .tensorElem s :: rest, v :: vs => (s, v) :: replayOutWrites rest vs
  | .scalarElem _ :: rest, _ :: vs => replayOutWrites rest vs
  | _, _ => []

/-- The storages of the tensor positions of an output pytree. -/
def tensorStorages (outs : List OutElem) : List Storage :=
  outs.filterMap
    (fun e => match e with
      | .tensorElem s => some s
      | .scalarElem _ => none)

/-- Running the recorded computation on the static buffers (a
`graph.replay()`): read the static input values, write the mutated input
values back into the static input storages, and write the output values into
the static output storages. -/
def replayGraph (gm : GmSemantics) (statics : List Storage)
    (outs : List OutElem) (h : Heap) : Heap :=
  let inVals := statics.map h
  let h := writeMany h (statics.zip (gm.inMutVals inVals))
  writeMany h (replayOutWrites outs (gm.outVals inVals))

/-- Eager allocation of outputs when `gm` runs outside any capture (warmup):
fresh storages already carrying the computed values. -/
def allocEagerOutputs : List OutSpec → List Val → Heap → Nat →
    List OutElem × Heap × Nat
  | [], _, h, f => ([], h, f)
  | .tensorOut :: rest, vals, h, f =>
    let v := vals.headD 0
    let r := allocEagerOutputs rest vals.tail (writeCell h f v) (f + 1)
    (.tensorElem f :: r.1, r.2)
  | .scalarOut v :: rest, vals, h, f =>
    let r := allocEagerOutputs rest vals.tail h f
    (.scalarElem v :: r.1, r.2)

/-- The result of one `CudaGraphModule.__call__`. -/
structure CGMCallResult where
  path : CallPath
  state : CGMState
  outputs : List OutElem
  heap : Heap
  fresh : Nat

/-- Shallow embedding of `CudaGraphModule.__call__` (training.py 270-305).

Replay branch (275-282): copy args into the static inputs, replay, copy the
static inputs back into the mutated argument tensors, return clones of the
static outputs.  Record branch (284-295): clone args into static inputs,
record `gm` on them inside the capture context (allocating the static
outputs without running), replay immediately, copy back, return clones.
Warmup branch (297-305): run `gm` eagerly on the caller's tensors (the side
stream only orders execution) and return its outputs directly. -/
def cudaGraphModuleCall (gm : GmSemantics) (st : CGMState)
    (args : List Storage) (h : Heap) (f : Nat) : CGMCallResult :=
  if st.graph then
    let h := copyInto st.static_inputs args h
    let h := replayGraph gm st.static_inputs st.static_outputs h
    let h := copyBack st.mutated_inputs args st.static_inputs h
    let r := cloneOutputs st.static_outputs h f
    { path := .replayPath, state := st, outputs := r.1, heap := r.2.1,
      fresh := r.2.2 }
  else if st.warmed_up then
    let ci := cloneList args h f
    let statics := ci.1
    let ao := allocOutputs gm.outSpec ci.2.2
    let souts := ao.1
    let h := replayGraph gm statics souts ci.2.1
    let h := copyBack st.mutated_inputs args statics h
    let r := cloneOutputs souts h ao.2
    let st' := { st with graph := true, static_inputs := statics,
                         static_outputs := souts }
    { path := .recordPath, state := st',
      outputs := r.1, heap := r.2.1, fresh := r.2.2 }
  else
    let inVals := args.map h
    let h := writeMany h (args.zip (gm.inMutVals inVals))
    let r := allocEagerOutputs gm.outSpec (gm.outVals inVals) h f
    { path := .warmupPath, state := { st with warmed_up := true },
      outputs := r.1, heap := r.2.1, fresh := r.2.2 }

/-! ## find_input_mutations (training.py, lines 312-345)

The graph is a list of fx nodes.  A node argument either is an fx `Node`
(whose `meta` carries a fake tensor with a storage), or is a python container
of nodes, or is a plain literal; the latter two have no `.meta`, so reading
`argument.meta` on them raises (the code's noted container limitation).
`StorageWeakRef` keys are the storage ids themselves. -/

/-- One schema argument: its name and whether `arg.alias_info` marks it as
written (`alias_info.is_write`). -/
structure SchemaArg where
  name : String
  is_write : Bool
deriving DecidableEq

/-- A top-level argument of a call_function node. -/
inductive FxArg
/-- An fx Node; its meta fake tensor's `_typed_storage()` id. -/
| nodeArg (storage : Nat)
/-- A python list/tuple of nodes (tensors nested in a container). -/
| containerArg (storages : List Nat)
/-- A non-tensor literal. -/
| litArg
deriving DecidableEq

/-- An fx graph node as `find_input_mutations` distinguishes them. -/
inductive FxNode
| placeholder (storage : Nat)
/-- `isGetitem` models `n.target is operator.getitem`. -/
| callFunction (isGetitem : Bool) (schema : List SchemaArg)
    (args : List FxArg) (kwargs : List (String × FxArg))
/-- Any other op kind: the loop ignores it. -/
| otherNode
deriving DecidableEq

/-- The loop state: `inputs` (defaultdict from storage to the placeholder
indices sharing it), `input_idx`, and the accumulated `mutated_inputs` (a
set; membership is what matters). -/
structure FimState where
  inputs : Nat → List Nat
  input_idx : Nat
  mutated : List Nat

/-- Resolve schema argument `i` against positional args then kwargs
(training.py 327-333); `none` means `continue`. -/
def resolveArg (args : List FxArg) (kwargs : List (String × FxArg))
    (i : Nat) (a : SchemaArg) : Option FxArg :=
  match args.get? i with
  | some x => some x
  | none => (kwargs.find? (fun p => p.1 = a.name)).map (fun p => p.2)

/-- The schema walk of one call_function node (training.py 327-343),
accumulating `mutated_inputs`.  A written argument that is not an fx Node
has no `.meta`: reading it raises (`Except.error`). -/
def collectWrites (inputs : Nat → List Nat) (args : List FxArg)
    (kwargs : List (String × FxArg)) :
    List SchemaArg → Nat → List Nat → Except Unit (List Nat)
  | [], _, acc => .ok acc
  | a :: rest, i, acc =>
    match resolveArg args kwargs i a with
    | none => collectWrites inputs args kwargs rest (i + 1) acc
    | some x =>
      if a.is_write then
        match x with
        | .nodeArg s => collectWrites inputs args kwargs rest (i + 1)
            (acc ++ inputs s)
        | _ => .error ()
      else collectWrites inputs args kwargs rest (i + 1) acc

/-- Process one node of the graph (training.py 319-344). -/
def fimStep (st : FimState) : FxNode → Except Unit FimState
  | .placeholder s =>
    .ok { inputs := fun s' => if s' = s then st.input_idx :: st.inputs s'
                              else st.inputs s',
          input_idx := st.input_idx + 1, mutated := st.mutated }
  | .callFunction isGetitem schema args kwargs =>
    if isGetitem then .ok st
    else
      match collectWrites st.inputs args kwargs schema 0 st.mutated with
      | .ok m => .ok { st with mutated := m }
      | .error e => .error e
  | .otherNode => .ok st

/-- The node loop. -/
def fimRun : List FxNode → FimState → Except Unit FimState
  | [], st => .ok st
  | n :: ns, st =>
    match fimStep st n with
    | .ok st' => fimRun ns st'
    | .error e => .error e

/-- `find_input_mutations(g)` (training.py 312-345): the set of mutated
placeholder indices (as a list; membership is the set). -/
def find_input_mutations (g : List FxNode) : Except Unit (List Nat) :=
  match fimRun g { inputs := fun _ => [], input_idx := 0, mutated := [] } with
  | .ok st => .ok st.mutated
  | .error e => .error e

/-- The storages of the graph's placeholders, in placeholder-index order. -/
def placeholderStorages (g : List FxNode) : List Nat :=
  g.filterMap (fun n => match n with
    | .placeholder s => some s
    | _ => none)

/-- The written top-level Node-argument storages of one node: for a
non-getitem call_function, the storages of resolvable `nodeArg` arguments at
schema positions whose alias annotation is a write.  Containers and literals
never contribute. -/
def schemaWrittenStorages (args : List FxArg)
    (kwargs : List (String × FxArg)) :
    List SchemaArg → Nat → List Nat
  | [], _ => []
  | a :: rest, i =>
    match resolveArg args kwargs i a with
    | some (.nodeArg s) =>
      if a.is_write then s :: schemaWrittenStorages args kwargs rest (i + 1)
      else schemaWrittenStorages args kwargs rest (i + 1)
    | _ => schemaWrittenStorages args kwargs rest (i + 1)

/-- All written top-level Node-argument storages of a graph. -/
def writtenStorages (g : List FxNode) : List Nat :=
  g.foldr
    (fun n acc => match n with
      | .callFunction isGetitem schema args kwargs =>
        (if isGetitem then [] else schemaWrittenStorages args kwargs schema 0)
          ++ acc
      | _ => acc)
    []

/-- `apply_cuda_graphs` (training.py 349-357) computes the mutation set once
from the submodule's graph, before any call, and bakes it into the wrapper it
installs. -/
def apply_cuda_graphs (subgraph : List FxNode) : Except Unit CGMState :=
  match find_input_mutations subgraph with
  | .ok m => .ok (mkCudaGraphModule m)
  | .error e => .error e

/-! ## Concrete instances used by witnesses and counterexamples -/

/-- A lowering registry with no entries. -/
def emptyLowerings : Target → Option (List LowArg → Except LowErr Nat) :=
  fun _ => none

/-- A registry whose every lowering raises (underlying exception 9). -/
def failingLowerings : Target → Option (List LowArg → Except LowErr Nat) :=
  fun _ => some (fun _ => Except.error 9)

/-- An empty decomposition registry. -/
def noDecomps : Target → Bool := fun _ => false

/-- A decomposition registry covering every target. -/
def allDecomps : Target → Bool := fun _ => true

/-- A trivial eager fallback. -/
def zeroFallback : Target → List LowArg → Nat := fun _ _ => 0

/-- The identity heap: every storage holds its own id as value. -/
def idHeap : Heap := fun s => s

/-- A concrete wrapped computation: one tensor output (first input plus one)
and one non-tensor output; it mutates its first input in place (plus
five). -/
def cgW_gm : GmSemantics :=
  { outSpec := [OutSpec.tensorOut, OutSpec.scalarOut 7],
    outVals := fun vs => [vs.headD 0 + 1, 0],
    inMutVals := fun vs => [vs.headD 0 + 5, vs.getD 1 0] }

/-- A concrete captured wrapper state: static inputs at storages 10 and 11,
a tensor static output at storage 30 plus a scalar, input 0 mutated. -/
def cgW_st : CGMState :=
  { mutated_inputs := [0], warmed_up := true, graph := true,
    static_inputs := [10, 11],
    static_outputs := [OutElem.tensorElem 30, OutElem.scalarElem 7] }

/-- The monotonicity-and-recording property every eligibility step enjoys:
it never turns `_can_use_cpp_wrapper` back to True, it only appends to the
logged reasons, and whenever it newly clears the flag it logs at least one
reason. -/
def EligibilityMono (f : WrapperState → WrapperState) : Prop :=
  ∀ st : WrapperState,
    ((f st).can_use_cpp_wrapper = true → st.can_use_cpp_wrapper = true) ∧
    st.disable_reasons <+: (f st).disable_reasons ∧
    ((f st).can_use_cpp_wrapper = false →
      st.can_use_cpp_wrapper = false ∨
      st.disable_reasons.length < (f st).disable_reasons.length)

/-! # Theorems -/

/-! ## C1 / C5: call_function dispatch -/

/-- C1 counterexample: the claim says a call_function node whose target has
no registered lowering and no registered decomposition raises the
MissingOperatorWithoutDecomp error when implicit fallbacks are disabled.
With every registry empty and fallbacks disabled, the node
`operator.getitem(list_arg, i)` raises nothing: graph.py line 246 delegates
it to the base fx Interpreter before any registry is consulted, so the
outcome is `interpreted`, not the claimed error. -/
theorem C1_missing_operator_counterexample :
    emptyLowerings Target.getitem = none ∧
    noDecomps Target.getitem = false ∧
    call_function emptyLowerings noDecomps false zeroFallback
        Target.getitem true [0] = CFOutcome.interpreted ∧
    CFOutcome.interpreted ≠ CFOutcome.missingWithoutDecomp Target.getitem :=
  ⟨rfl, rfl, rfl, by decide⟩

/-- C1 (amended): for every call_function node whose target has no
registered lowering, except `operator.getitem` applied to a list or tuple
(which is delegated to the base interpreter with no error and no fallback):
with no registered decomposition and fallbacks disabled lowering raises the
MissingOperatorWithoutDecomp ("no decomposition") error; with a
decomposition but implicit fallbacks disabled it raises the
MissingOperatorWithDecomp ("decomposition without lowering") error; with
implicit fallbacks enabled no error is raised and a fallback lowering is
created and used instead. -/
theorem C1_missing_operator_amended
    (lowerings : Target → Option (List LowArg → Except LowErr Nat))
    (hasDecomp : Target → Bool) (implicit_fallbacks : Bool)
    (fallbackFn : Target → List LowArg → Nat)
    (target : Target) (argsIsSeq : Bool) (args : List LowArg)
    (hnone : lowerings target = none)
    (hng : ¬(target = Target.getitem ∧ argsIsSeq = true)) :
    (implicit_fallbacks = false → hasDecomp target = false →
      call_function lowerings hasDecomp implicit_fallbacks fallbackFn
        target argsIsSeq args = CFOutcome.missingWithoutDecomp target) ∧
    (implicit_fallbacks = false → hasDecomp target = true →
      call_function lowerings hasDecomp implicit_fallbacks fallbackFn
        target argsIsSeq args = CFOutcome.missingWithDecomp target) ∧
    (implicit_fallbacks = true →
      call_function lowerings hasDecomp implicit_fallbacks fallbackFn
        target argsIsSeq args = CFOutcome.fallbackOk (fallbackFn target args)) := by
  refine ⟨fun h1 h2 => ?_, fun h1 h2 => ?_, fun h1 => ?_⟩
  · simp [call_function, hnone, h1, h2, if_neg hng]
  · simp [call_function, hnone, h1, h2, if_neg hng]
  · simp [call_function, hnone, h1, if_neg hng]

/-- C1 witness: the amended theorem applied to the target `op 1` with the
empty registries and fallbacks disabled. -/
theorem C1_missing_operator_amended_witness :
    (false = false → noDecomps (Target.op 1) = false →
      call_function emptyLowerings noDecomps false zeroFallback
        (Target.op 1) false [2] = CFOutcome.missingWithoutDecomp (Target.op 1)) ∧
    (false = false → noDecomps (Target.op 1) = true →
      call_function emptyLowerings noDecomps false zeroFallback
        (Target.op 1) false [2] = CFOutcome.missingWithDecomp (Target.op 1)) ∧
    (false = true →
      call_function emptyLowerings noDecomps false zeroFallback
        (Target.op 1) false [2] = CFOutcome.fallbackOk (zeroFallback (Target.op 1) [2])) :=
  C1_missing_operator_amended emptyLowerings noDecomps false zeroFallback
    (Target.op 1) false [2] rfl (by decide)

/-- C5: for a call_function node whose target has a registered lowering, an
exception `e` raised by the lowering function is wrapped together with the
node's target and arguments into a LoweringException and re-raised; a
successful lowering's value is returned, so no exception is swallowed. -/
theorem C5_lowering_exception_wrapped
    (lowerings : Target → Option (List LowArg → Except LowErr Nat))
    (hasDecomp : Target → Bool) (implicit_fallbacks : Bool)
    (fallbackFn : Target → List LowArg → Nat)
    (target : Target) (argsIsSeq : Bool) (args : List LowArg)
    (f : List LowArg → Except LowErr Nat)
    (hsome : lowerings target = some f)
    (hng : ¬(target = Target.getitem ∧ argsIsSeq = true)) :
    (∀ e, f args = Except.error e →
      call_function lowerings hasDecomp implicit_fallbacks fallbackFn
        target argsIsSeq args = CFOutcome.loweringException e target args) ∧
    (∀ v, f args = Except.ok v →
      call_function lowerings hasDecomp implicit_fallbacks fallbackFn
        target argsIsSeq args = CFOutcome.ok v) := by
  constructor <;> intro x hx <;>
    simp [call_function, hsome, hx, if_neg hng]

/-- C5 witness: a lowering that raises the underlying exception 9 on the
target `op 2` is re-raised as a LoweringException carrying that exception,
the target and the arguments. -/
theorem C5_lowering_exception_wrapped_witness :
    (∀ e, (fun _ : List LowArg => (Except.error 9 : Except LowErr Nat)) [4] = Except.error e →
      call_function failingLowerings noDecomps true zeroFallback
        (Target.op 2) false [4] = CFOutcome.loweringException e (Target.op 2) [4]) ∧
    (∀ v, (fun _ : List LowArg => (Except.error 9 : Except LowErr Nat)) [4] = Except.ok v →
      call_function failingLowerings noDecomps true zeroFallback
        (Target.op 2) false [4] = CFOutcome.ok v) :=
  C5_lowering_exception_wrapped failingLowerings noDecomps true zeroFallback
    (Target.op 2) false [4] (fun _ => Except.error 9) rfl (by decide)

/-! ## C6 / C10: aot_autograd safety check and tiny-graph early return -/

/-- C6: a graph module with no "LSTM" submodule passes
`is_aot_autograd_safe_to_run` ("safe", no exception) under either setting of
the flag; one with an "LSTM" submodule raises NotImplementedError exactly
when `config.raise_on_unsafe_aot_autograd` is set and otherwise warns and
returns False, after which `compiler_fn` falls back to the uncompiled graph
module and increments the aot_autograd "not_ok" counter (having counted
"total"). -/
theorem C6_lstm_safety_check :
    (∀ (flag : Bool) (gm : FxGraphModule),
      gm.moduleClassNames.contains "LSTM" = false →
      is_aot_autograd_safe_to_run flag gm = SafeOutcome.safe) ∧
    (∀ gm : FxGraphModule,
      gm.moduleClassNames.contains "LSTM" = true →
      is_aot_autograd_safe_to_run true gm =
          SafeOutcome.raisedNotImplemented (unsafe_reason_msg "LSTM") ∧
      is_aot_autograd_safe_to_run false gm =
          SafeOutcome.unsafeWarned (unsafe_reason_msg "LSTM")) ∧
    (∀ (compileFn : FxGraphModule → Except String Nat) (force : Bool)
        (gm : FxGraphModule) (c : AotCounters),
      gm.moduleClassNames.contains "LSTM" = true →
      ¬(gm.callCount < 2 ∧ force = false) →
      compiler_fn false compileFn force gm c =
        (CompileResult.fallback gm, ⟨c.total + 1, c.ok, c.not_ok + 1⟩)) := by
  refine ⟨fun flag gm h => ?_, fun gm h => ?_, fun compileFn force gm c h hbig => ?_⟩
  · have hm : "LSTM" ∉ gm.moduleClassNames := by simpa using h
    simp [is_aot_autograd_safe_to_run, hm]
  · have hm : "LSTM" ∈ gm.moduleClassNames := by simpa using h
    simp [is_aot_autograd_safe_to_run, raise_or_warn, hm]
  · have hm : "LSTM" ∈ gm.moduleClassNames := by simpa using h
    simp only [compiler_fn, is_aot_autograd_safe_to_run, raise_or_warn,
      hm, List.contains_eq_any_beq]
    simp [hbig, hm]

/-- C6 witness: a two-call graph containing an LSTM submodule, with the
raise flag off, is sent down the fallback path with the counters updated. -/
theorem C6_lstm_safety_check_witness :
    is_aot_autograd_safe_to_run true ⟨2, ["Conv2d", "ReLU"]⟩ = SafeOutcome.safe ∧
    is_aot_autograd_safe_to_run true ⟨2, ["LSTM"]⟩ =
        SafeOutcome.raisedNotImplemented (unsafe_reason_msg "LSTM") ∧
    compiler_fn false (fun _ => Except.ok 5) false ⟨2, ["LSTM"]⟩ ⟨0, 0, 0⟩ =
        (CompileResult.fallback ⟨2, ["LSTM"]⟩, ⟨1, 0, 1⟩) :=
  ⟨C6_lstm_safety_check.1 true ⟨2, ["Conv2d", "ReLU"]⟩ (by decide),
   (C6_lstm_safety_check.2.1 ⟨2, ["LSTM"]⟩ (by decide)).1,
   C6_lstm_safety_check.2.2 (fun _ => Except.ok 5) false ⟨2, ["LSTM"]⟩ ⟨0, 0, 0⟩
     (by decide) (by decide)⟩

/-- C10: `compiler_fn` returns the input graph module unchanged with all
aot_autograd counters untouched precisely when the graph has fewer than two
call nodes and `force_compile_tiny_graphs` was not passed as True; in every
other case the "total" counter is incremented, so the safety check and the
ok/not_ok accounting are reached only for graphs with at least two calls or
under the force flag. -/
theorem C10_tiny_graph_early_return
    (flag : Bool) (compileFn : FxGraphModule → Except String Nat)
    (force : Bool) (gm : FxGraphModule) (c : AotCounters) :
    (compiler_fn flag compileFn force gm c = (CompileResult.unchanged gm, c) ↔
      gm.callCount < 2 ∧ force = false) ∧
    ((compiler_fn flag compileFn force gm c).2.total =
      if gm.callCount < 2 ∧ force = false then c.total else c.total + 1) := by
  by_cases h : gm.callCount < 2 ∧ force = false
  · have h' : gm.callCount < 2 ∧ ¬(force = true) := by
      simpa [Bool.not_eq_true] using h
    simp [compiler_fn, h', h]
  · have h' : ¬(gm.callCount < 2 ∧ ¬(force = true)) := by
      simpa [Bool.not_eq_true] using h
    rw [compiler_fn]
    rw [if_neg h']
    simp only [h, if_false]
    cases hs : is_aot_autograd_safe_to_run flag gm with
    | safe =>
      cases hc : compileFn gm <;> simp
    | unsafeWarned msg => simp
    | raisedNotImplemented msg => simp

/-- C10 is stated without hypotheses, but we record a concrete instance all
the same: a one-call graph is returned unchanged. -/
theorem C10_tiny_graph_early_return_witness :
    (compiler_fn false (fun _ => Except.ok 5) false ⟨1, []⟩ ⟨3, 1, 2⟩ =
        (CompileResult.unchanged ⟨1, []⟩, ⟨3, 1, 2⟩) ↔ 1 < 2 ∧ false = false) ∧
    ((compiler_fn false (fun _ => Except.ok 5) false ⟨1, []⟩ ⟨3, 1, 2⟩).2.total =
      if 1 < 2 ∧ false = false then 3 else 3 + 1) :=
  C10_tiny_graph_early_return false (fun _ => Except.ok 5) false ⟨1, []⟩ ⟨3, 1, 2⟩

/-! ## C4: fuse_conv_bn -/

/-- C4 counterexample: the claim says a conv→bn module pair is fused exactly
when the convolution's output is consumed only by the batch-norm and both
modules are in evaluation mode.  A matching pair with a single consumer and
both modules in eval mode, but whose batch-norm has
`track_running_stats = False`, satisfies the claimed condition yet is left
unfused: overrides.py line 646-647 additionally requires
`bn.track_running_stats`. -/
theorem C4_fuse_conv_bn_counterexample :
    matches_module_pattern ⟨true, true, 1, ⟨false⟩, ⟨false, false⟩⟩ = true ∧
    (1 : Nat) ≤ 1 ∧
    conv_bn_eval_mode ⟨true, true, 1, ⟨false⟩, ⟨false, false⟩⟩ = true ∧
    fuse_conv_bn_rewrite ⟨true, true, 1, ⟨false⟩, ⟨false, false⟩⟩ = none := by
  decide

/-- C4 (amended): a matching conv→bn module pair is replaced by a single
fused convolution node exactly when the convolution's output is consumed
only by that batch-norm, both modules are in evaluation mode, AND the
batch-norm tracks running statistics; otherwise the pair is left unfused. -/
theorem C4_fuse_conv_bn_amended (c : ConvBnCandidate)
    (hm : matches_module_pattern c = true) :
    (fuse_conv_bn_rewrite c = some c.conv ↔
      ¬(1 < c.convUsers) ∧ c.conv.training = false ∧ c.bn.training = false ∧
        c.bn.track_running_stats = true) ∧
    (fuse_conv_bn_rewrite c = none ↔
      ¬(¬(1 < c.convUsers) ∧ c.conv.training = false ∧ c.bn.training = false ∧
        c.bn.track_running_stats = true)) := by
  unfold fuse_conv_bn_rewrite fuse_conv_bn_fuses conv_bn_eval_mode
  rw [hm]
  by_cases hu : 1 < c.convUsers <;>
    cases hct : c.conv.training <;> cases hbt : c.bn.training <;>
    cases hts : c.bn.track_running_stats <;>
    simp [hu, hct, hbt, hts]

/-- C4 witness: the amended equivalence at a fusable candidate (single
consumer, eval mode, tracked running stats). -/
theorem C4_fuse_conv_bn_amended_witness :
    (fuse_conv_bn_rewrite ⟨true, true, 1, ⟨false⟩, ⟨false, true⟩⟩ =
        some (⟨true, true, 1, ⟨false⟩, ⟨false, true⟩⟩ : ConvBnCandidate).conv ↔
      ¬(1 < 1) ∧ false = false ∧ false = false ∧ true = true) ∧
    (fuse_conv_bn_rewrite ⟨true, true, 1, ⟨false⟩, ⟨false, true⟩⟩ = none ↔
      ¬(¬(1 < 1) ∧ false = false ∧ false = false ∧ true = true)) :=
  C4_fuse_conv_bn_amended ⟨true, true, 1, ⟨false⟩, ⟨false, true⟩⟩ (by decide)

/-! ## C3: realize-or-defer -/

/-- The per-user loop never changes the accumulated read count or the IR
kind of the box, only its realization flag. -/
theorem run_node_user_step_reads (r : TensorBoxModel) (u : NodeUser) :
    (run_node_user_step r u).reads = r.reads ∧
    (run_node_user_step r u).kind = r.kind := by
  unfold run_node_user_step realize_hint boxRealize
  dsimp only
  split <;> split <;> simp

/-- Folding the per-user loop preserves reads and kind. -/
theorem run_node_foldl_reads (users : List NodeUser) (r : TensorBoxModel) :
    (users.foldl run_node_user_step r).reads = r.reads ∧
    (users.foldl run_node_user_step r).kind = r.kind := by
  induction users generalizing r with
  | nil => exact ⟨rfl, rfl⟩
  | cons u us ih =>
    rw [List.foldl_cons]
    exact ⟨((ih _).1).trans (run_node_user_step_reads r u).1,
           ((ih _).2).trans (run_node_user_step_reads r u).2⟩

/-- C3 counterexample: the claim says an intermediate whose accumulated read
count exceeds `config.realize_reads_threshold` (= 4) is forced to
materialize.  A pointwise intermediate with 5 accumulated reads but a single
consumer is left inlined: `run_node` only calls `mark_reuse` when the node
has more than one distinct user (graph.py 347-348), and 5 reads do not
exceed `config.realize_acc_reads_threshold` (= 8) either. -/
theorem C3_realize_reads_counterexample :
    realize_reads_threshold < 5 ∧
    (run_node_realize ⟨5, IRKind.pointwise, false⟩ [⟨false, false⟩]).realized
      = false := by
  decide

/-- C3 (amended): during per-node lowering, an intermediate TensorBox with
more than one distinct consumer whose accumulated read count exceeds
`config.realize_reads_threshold` is forced to materialize as a distinct
buffer; an intermediate below the threshold with a single consumer, none of
whose consumers is in the needs_realized_inputs operator class and which is
not a graph output, remains an inlined (unrealized) expression. -/
theorem C3_realize_or_defer_amended (b : TensorBoxModel)
    (users : List NodeUser) :
    (1 < users.length → realize_reads_threshold < b.reads →
      (run_node_realize b users).realized = true) ∧
    (b.reads ≤ realize_reads_threshold → users.length = 1 →
      (∀ u ∈ users, u.needs_realized = false) →
      (∀ u ∈ users, u.is_output = false) →
      b.realized = false →
      (run_node_realize b users).realized = false) := by
  constructor
  · intro hu hr
    have hr2 : realize_reads_threshold <
        (List.foldl run_node_user_step b users).reads := by
      rw [(run_node_foldl_reads users b).1]; exact hr
    have hmr : mark_reuse users.length (List.foldl run_node_user_step b users)
        = boxRealize (List.foldl run_node_user_step b users) := by
      unfold mark_reuse
      rw [if_pos ⟨hu, hr2⟩]
    simp only [run_node_realize]
    rw [if_pos hu, hmr]
    unfold realize_hint boxRealize
    split <;> rfl
  · intro hr hu _ _ hb
    have hr' : b.reads ≤ 4 := by simpa [realize_reads_threshold] using hr
    have hex : has_exceeded_max_reads b = false := by
      simp only [has_exceeded_max_reads, realize_acc_reads_threshold,
        decide_eq_false_iff_not]
      omega
    simp only [run_node_realize, hu]
    simp [hex, hb]

/-- C3 witness: a pointwise intermediate read 5 times with two consumers is
materialized; one read 3 times with a single plain consumer stays inlined. -/
theorem C3_realize_or_defer_amended_witness :
    ((1 : Nat) < 2 → realize_reads_threshold < 5 →
      (run_node_realize ⟨5, IRKind.pointwise, false⟩
          [⟨false, false⟩, ⟨false, false⟩]).realized = true) ∧
    ((5 : Nat) ≤ realize_reads_threshold →
      (2 : Nat) = 1 →
      (∀ u ∈ [(⟨false, false⟩ : NodeUser), ⟨false, false⟩], u.needs_realized = false) →
      (∀ u ∈ [(⟨false, false⟩ : NodeUser), ⟨false, false⟩], u.is_output = false) →
      false = false →
      (run_node_realize ⟨5, IRKind.pointwise, false⟩
          [⟨false, false⟩, ⟨false, false⟩]).realized = false) :=
  C3_realize_or_defer_amended ⟨5, IRKind.pointwise, false⟩
    [⟨false, false⟩, ⟨false, false⟩]

/-! ## C7: cpp-wrapper eligibility -/

theorem eligmono_id : EligibilityMono (fun st => st) :=
  fun _ => ⟨id, List.prefix_refl _, fun h => Or.inl h⟩

theorem eligmono_disable (r : String) :
    EligibilityMono (fun st => disable_cpp_wrapper st r) := by
  intro st
  refine ⟨fun h => ?_, ?_, fun _ => Or.inr ?_⟩
  · simp [disable_cpp_wrapper] at h
  · simp [disable_cpp_wrapper]
  · simp [disable_cpp_wrapper]

theorem eligmono_ite (c : Prop) [Decidable c] (r : String) :
    EligibilityMono (fun st => if c then disable_cpp_wrapper st r else st) := by
  intro st
  by_cases h : c
  · simp only [if_pos h]
    exact eligmono_disable r st
  · simp only [if_neg h]
    exact eligmono_id st

theorem eligmono_comp {f g : WrapperState → WrapperState}
    (hf : EligibilityMono f) (hg : EligibilityMono g) :
    EligibilityMono (fun st => g (f st)) := by
  intro st
  obtain ⟨m1, p1, l1⟩ := hf st
  obtain ⟨m2, p2, l2⟩ := hg (f st)
  refine ⟨fun h => m1 (m2 h), p1.trans p2, fun h => ?_⟩
  rcases l2 h with h2 | h2
  · rcases l1 h2 with h1 | h1
    · exact Or.inl h1
    · exact Or.inr (lt_of_lt_of_le h1 p2.length_le)
  · exact Or.inr (lt_of_le_of_lt p1.length_le h2)

theorem eligmono_foldl {α : Type} (step : WrapperState → α → WrapperState)
    (hstep : ∀ a, EligibilityMono (fun st => step st a)) :
    ∀ l : List α, EligibilityMono (fun st => l.foldl step st) := by
  intro l
  induction l with
  | nil => exact fun st => ⟨id, List.prefix_refl _, fun h => Or.inl h⟩
  | cons a as ih =>
    have h := eligmono_comp (hstep a) ih
    intro st
    simpa [List.foldl_cons] using h st

theorem eligmono_check_buffer (b : RegisteredBuffer) :
    EligibilityMono (fun st => check_buffer_for_cpp_wrapper st b) := by
  have h := eligmono_comp
    (eligmono_ite (b.isExternKernel = true) "ExternKernel")
    (eligmono_ite (b.isReductionComputed = true) "Reduction")
  intro st
  simpa [check_buffer_for_cpp_wrapper] using h st

theorem eligmono_check_device (env : CppWrapperEnv) :
    EligibilityMono (check_device_for_cpp_buffer env) := by
  intro st
  rcases hd : env.device_types with _ | ⟨d, rest⟩
  · simpa [check_device_for_cpp_buffer, hd] using eligmono_disable "device not CPU" st
  · rcases rest with _ | ⟨e, rest'⟩
    · by_cases h : d = "cpu"
      · simp only [check_device_for_cpp_buffer, hd, if_pos h]
        exact eligmono_id st
      · simpa [check_device_for_cpp_buffer, hd, h] using
          eligmono_disable "device not CPU" st
    · simpa [check_device_for_cpp_buffer, hd] using
        eligmono_disable "device not CPU" st

theorem eligmono_check_cpp_wrapper (env : CppWrapperEnv) :
    EligibilityMono (check_cpp_wrapper env) := by
  have h :=
    eligmono_comp (eligmono_ite (env.platform ≠ "linux") "platform not linux")
      (eligmono_comp (eligmono_ite (env.profiler_mark_wrapper_call = true)
          "profiler not supported")
        (eligmono_comp (eligmono_check_device env)
          (eligmono_comp (eligmono_foldl _
              (fun a => eligmono_ite (a = true) "inputs not FP32")
              env.input_not_fp32)
            (eligmono_comp (eligmono_foldl _
                (fun a => eligmono_ite (a = true) "NoneAsConstantBuffer")
                env.output_is_none_constant)
              (eligmono_ite (env.has_constants = true) "Constants")))))
  intro st
  simpa [check_cpp_wrapper, check_platform, check_profiler_mark_wrapper_call,
    check_input_for_cpp_buffer, check_output_for_cpp_buffer,
    check_constant_for_cpp_buffer] using h st

theorem can_use_disable (st : WrapperState) (r : String) :
    (disable_cpp_wrapper st r).can_use_cpp_wrapper = false := rfl

theorem can_use_foldl_ite (r : String) (l : List Bool) (st : WrapperState) :
    (l.foldl (fun s bad => if bad then disable_cpp_wrapper s r else s)
        st).can_use_cpp_wrapper =
      (st.can_use_cpp_wrapper && l.all (fun x => !x)) := by
  induction l generalizing st with
  | nil => simp
  | cons a as ih =>
    rw [List.foldl_cons, ih]
    cases a <;> simp [disable_cpp_wrapper, Bool.and_assoc]

theorem can_use_foldl_buffer (bufs : List RegisteredBuffer)
    (st : WrapperState) :
    (bufs.foldl check_buffer_for_cpp_wrapper st).can_use_cpp_wrapper =
      (st.can_use_cpp_wrapper &&
        bufs.all (fun b => !b.isExternKernel && !b.isReductionComputed)) := by
  induction bufs generalizing st with
  | nil => simp
  | cons b bs ih =>
    rw [List.foldl_cons, ih]
    have hb : (check_buffer_for_cpp_wrapper st b).can_use_cpp_wrapper =
        (st.can_use_cpp_wrapper && (!b.isExternKernel && !b.isReductionComputed)) := by
      unfold check_buffer_for_cpp_wrapper
      cases he : b.isExternKernel <;> cases hr : b.isReductionComputed <;>
        simp [disable_cpp_wrapper]
    rw [hb, Bool.and_assoc]
    simp

theorem can_use_check_cpp_wrapper (env : CppWrapperEnv) (st : WrapperState) :
    (check_cpp_wrapper env st).can_use_cpp_wrapper =
      (st.can_use_cpp_wrapper &&
        (decide (env.platform = "linux") &&
          (!env.profiler_mark_wrapper_call &&
            (decide (env.device_types = ["cpu"]) &&
              (env.input_not_fp32.all (fun x => !x) &&
                (env.output_is_none_constant.all (fun x => !x) &&
                  !env.has_constants)))))) := by
  unfold check_cpp_wrapper check_input_for_cpp_buffer check_output_for_cpp_buffer
  have hpl : ∀ s : WrapperState, (check_platform env s).can_use_cpp_wrapper =
      (s.can_use_cpp_wrapper && decide (env.platform = "linux")) := by
    intro s
    unfold check_platform
    by_cases h : env.platform = "linux" <;> simp [h, disable_cpp_wrapper]
  have hpr : ∀ s : WrapperState,
      (check_profiler_mark_wrapper_call env s).can_use_cpp_wrapper =
      (s.can_use_cpp_wrapper && !env.profiler_mark_wrapper_call) := by
    intro s
    unfold check_profiler_mark_wrapper_call
    cases h : env.profiler_mark_wrapper_call <;> simp [h, disable_cpp_wrapper]
  have hde : ∀ s : WrapperState,
      (check_device_for_cpp_buffer env s).can_use_cpp_wrapper =
      (s.can_use_cpp_wrapper && decide (env.device_types = ["cpu"])) := by
    intro s
    unfold check_device_for_cpp_buffer
    rcases hd : env.device_types with _ | ⟨d, _ | ⟨e, rest'⟩⟩
    · simp [disable_cpp_wrapper]
    · by_cases h : d = "cpu" <;> simp [h, disable_cpp_wrapper]
    · simp [disable_cpp_wrapper]
  have hco : ∀ s : WrapperState,
      (check_constant_for_cpp_buffer env s).can_use_cpp_wrapper =
      (s.can_use_cpp_wrapper && !env.has_constants) := by
    intro s
    unfold check_constant_for_cpp_buffer
    cases h : env.has_constants <;> simp [h, disable_cpp_wrapper]
  rw [hco, can_use_foldl_ite, can_use_foldl_ite, hde, hpr, hpl]
  simp [Bool.and_assoc]

/-- C7: cpp-wrapper eligibility is monotone and recorded.  Every eligibility
step (the six checks of `check_cpp_wrapper` and the per-buffer check run by
`register_buffer`) never turns `_can_use_cpp_wrapper` back to True, only
appends disqualifying reasons, and logs a reason whenever it newly clears
the flag; the flag starts from `config.cpp_wrapper`, and
`init_wrapper_code` selects the cpp wrapper backend exactly when the
configured flag was set and every check passes (Linux platform, no profiler
instrumentation, device set exactly {"cpu"}, all inputs float32, no None
output placeholder, no residual constants, no extern-kernel or reduction
buffers); every outcome is an ordinary wrapper choice, never an
exception. -/
theorem C7_cpp_wrapper_eligibility :
    (∀ env : CppWrapperEnv, EligibilityMono (check_cpp_wrapper env)) ∧
    (∀ b : RegisteredBuffer,
      EligibilityMono (fun st => check_buffer_for_cpp_wrapper st b)) ∧
    (∀ (cw : Bool) (env : CppWrapperEnv) (bufs : List RegisteredBuffer),
      ((init_wrapper_code cw env bufs).1 = WrapperChoice.cppWrapperCodeGen ↔
        cw = true ∧ env.platform = "linux" ∧
        env.profiler_mark_wrapper_call = false ∧
        env.device_types = ["cpu"] ∧
        env.input_not_fp32.all (fun x => !x) = true ∧
        env.output_is_none_constant.all (fun x => !x) = true ∧
        env.has_constants = false ∧
        bufs.all (fun b => !b.isExternKernel && !b.isReductionComputed) = true) ∧
      ((init_wrapper_code cw env bufs).1 = WrapperChoice.cppWrapperCodeGen ∨
        (init_wrapper_code cw env bufs).1 = WrapperChoice.pyWrapperCodeGen)) := by
  refine ⟨eligmono_check_cpp_wrapper, eligmono_check_buffer, fun cw env bufs => ?_⟩
  constructor
  · cases cw with
    | false => simp [init_wrapper_code]
    | true =>
      have hcan := can_use_check_cpp_wrapper env
        (bufs.foldl check_buffer_for_cpp_wrapper
          ⟨true, []⟩)
      rw [can_use_foldl_buffer] at hcan
      by_cases h : (check_cpp_wrapper env
          (bufs.foldl check_buffer_for_cpp_wrapper ⟨true, []⟩)).can_use_cpp_wrapper = true
      · have hres : (init_wrapper_code true env bufs).1 =
            WrapperChoice.cppWrapperCodeGen := by
          simp [init_wrapper_code, h]
        rw [hres]
        rw [hcan] at h
        simp only [Bool.true_and] at h
        simp only [Bool.and_eq_true, decide_eq_true_eq, Bool.not_eq_true'] at h
        simp [h.1, h.2.1, h.2.2.1, h.2.2.2.1, h.2.2.2.2.1, h.2.2.2.2.2]
      · have hres : (init_wrapper_code true env bufs).1 =
            WrapperChoice.pyWrapperCodeGen := by
          simp [init_wrapper_code, h]
        rw [hres]
        rw [hcan] at h
        constructor
        · intro hc
          exact absurd hc (by simp)
        · rintro ⟨-, h1, h2, h3, h4, h5, h6, h7⟩
          exact (h (by simp [h1, h2, h3, h4, h5, h6, h7])).elim
  · have hall : ∀ w : WrapperChoice,
        w = WrapperChoice.cppWrapperCodeGen ∨ w = WrapperChoice.pyWrapperCodeGen := by
      intro w
      cases w
      · exact Or.inl rfl
      · exact Or.inr rfl
    exact hall _

/-- C7 witness: a fully eligible configuration selects the cpp wrapper, and
the monotonicity facts instantiated at a concrete cleared state. -/
theorem C7_cpp_wrapper_eligibility_witness :
    EligibilityMono (check_cpp_wrapper ⟨"linux", false, ["cpu"], [], [], false⟩) ∧
    (init_wrapper_code true ⟨"linux", false, ["cpu"], [], [], false⟩ []).1 =
      WrapperChoice.cppWrapperCodeGen :=
  ⟨C7_cpp_wrapper_eligibility.1 ⟨"linux", false, ["cpu"], [], [], false⟩,
   ((C7_cpp_wrapper_eligibility.2.2 true
      ⟨"linux", false, ["cpu"], [], [], false⟩ []).1).mpr
     (by refine ⟨rfl, rfl, rfl, rfl, ?_, ?_, rfl, ?_⟩ <;> rfl)⟩

/-! ## C2: CudaGraphModule three-state machine -/

/-- C2: the CudaGraphModule wrapper is a three-state machine.  A freshly
constructed wrapper's first invocation takes the warmup branch (runs the
wrapped computation eagerly, no capture: `graph` stays None) and sets
`warmed_up`; an invocation of a warmed-but-uncaptured wrapper takes the
record branch, cloning the arguments into static input buffers, recording
once, replaying immediately, and leaving `graph` non-None; an invocation of
a captured wrapper takes the replay branch and leaves the entire wrapper
state unchanged, so every later call replays and never re-captures or
re-runs warmup. -/
theorem C2_cuda_graph_three_state_machine :
    (∀ (gm : GmSemantics) (mutated : List Nat) (args : List Storage)
        (h : Heap) (f : Nat),
      (cudaGraphModuleCall gm (mkCudaGraphModule mutated) args h f).path =
          CallPath.warmupPath ∧
      (cudaGraphModuleCall gm (mkCudaGraphModule mutated) args h f).state.warmed_up
          = true ∧
      (cudaGraphModuleCall gm (mkCudaGraphModule mutated) args h f).state.graph
          = false) ∧
    (∀ (gm : GmSemantics) (st : CGMState) (args : List Storage)
        (h : Heap) (f : Nat),
      st.graph = false → st.warmed_up = true →
      (cudaGraphModuleCall gm st args h f).path = CallPath.recordPath ∧
      (cudaGraphModuleCall gm st args h f).state.graph = true ∧
      (cudaGraphModuleCall gm st args h f).state.warmed_up = true ∧
      (cudaGraphModuleCall gm st args h f).state.static_inputs =
          (cloneList args h f).1) ∧
    (∀ (gm : GmSemantics) (st : CGMState) (args : List Storage)
        (h : Heap) (f : Nat),
      st.graph = true →
      (cudaGraphModuleCall gm st args h f).path = CallPath.replayPath ∧
      (cudaGraphModuleCall gm st args h f).state = st) := by
  refine ⟨fun gm mutated args h f => ?_,
          fun gm st args h f h1 h2 => ?_,
          fun gm st args h f h1 => ?_⟩
  · simp [cudaGraphModuleCall, mkCudaGraphModule]
  · simp [cudaGraphModuleCall, h1, h2]
  · simp [cudaGraphModuleCall, h1]

/-- C2 witness: the second and third branch at a concrete warmed state and a
concrete captured state. -/
theorem C2_cuda_graph_three_state_machine_witness :
    ((cudaGraphModuleCall ⟨[OutSpec.tensorOut], fun vs => [vs.headD 0 + 1],
          fun vs => vs⟩
        ⟨[], true, false, [], []⟩ [0] (fun _ => 5) 100).path =
          CallPath.recordPath ∧
      (cudaGraphModuleCall ⟨[OutSpec.tensorOut], fun vs => [vs.headD 0 + 1],
          fun vs => vs⟩
        ⟨[], true, false, [], []⟩ [0] (fun _ => 5) 100).state.graph = true ∧
      (cudaGraphModuleCall ⟨[OutSpec.tensorOut], fun vs => [vs.headD 0 + 1],
          fun vs => vs⟩
        ⟨[], true, false, [], []⟩ [0] (fun _ => 5) 100).state.warmed_up = true ∧
      (cudaGraphModuleCall ⟨[OutSpec.tensorOut], fun vs => [vs.headD 0 + 1],
          fun vs => vs⟩
        ⟨[], true, false, [], []⟩ [0] (fun _ => 5) 100).state.static_inputs =
          (cloneList [0] (fun _ => 5) 100).1) ∧
    ((cudaGraphModuleCall ⟨[OutSpec.tensorOut], fun vs => [vs.headD 0 + 1],
          fun vs => vs⟩
        ⟨[], true, true, [100], [OutElem.tensorElem 101]⟩ [0] (fun _ => 5)
        102).path = CallPath.replayPath ∧
      (cudaGraphModuleCall ⟨[OutSpec.tensorOut], fun vs => [vs.headD 0 + 1],
          fun vs => vs⟩
        ⟨[], true, true, [100], [OutElem.tensorElem 101]⟩ [0] (fun _ => 5)
        102).state = ⟨[], true, true, [100], [OutElem.tensorElem 101]⟩) :=
  ⟨C2_cuda_graph_three_state_machine.2.1
      ⟨[OutSpec.tensorOut], fun vs => [vs.headD 0 + 1], fun vs => vs⟩
      ⟨[], true, false, [], []⟩ [0] (fun _ => 5) 100 rfl rfl,
   C2_cuda_graph_three_state_machine.2.2
      ⟨[OutSpec.tensorOut], fun vs => [vs.headD 0 + 1], fun vs => vs⟩
      ⟨[], true, true, [100], [OutElem.tensorElem 101]⟩ [0] (fun _ => 5)
      102 rfl⟩

/-! ## C9: find_input_mutations -/

/-- A successful schema walk accumulates exactly the placeholder-index sets
of the written top-level Node-argument storages, in order. -/
theorem collectWrites_ok_eq (inputs : Nat → List Nat) (args : List FxArg)
    (kwargs : List (String × FxArg)) :
    ∀ (schema : List SchemaArg) (i : Nat) (acc acc' : List Nat),
    collectWrites inputs args kwargs schema i acc = .ok acc' →
    acc' = acc ++ (schemaWrittenStorages args kwargs schema i).flatMap inputs := by
  intro schema
  induction schema with
  | nil =>
    intro i acc acc' hok
    simp only [collectWrites, Except.ok.injEq] at hok
    simp [schemaWrittenStorages, hok]
  | cons a rest ih =>
    intro i acc acc' hok
    rw [collectWrites] at hok
    cases hres : resolveArg args kwargs i a with
    | none =>
      rw [hres] at hok
      simp only [schemaWrittenStorages, hres]
      exact ih (i + 1) acc acc' hok
    | some x =>
      rw [hres] at hok
      cases hw : a.is_write with
      | false =>
        rw [hw] at hok
        simp only [if_false, Bool.false_eq_true] at hok
        have hrec := ih (i + 1) acc acc' hok
        cases x <;> simp [schemaWrittenStorages, hres, hw, hrec]
      | true =>
        rw [hw] at hok
        simp only [if_true] at hok
        cases x with
        | nodeArg s =>
          have hrec := ih (i + 1) (acc ++ inputs s) acc' hok
          simp [schemaWrittenStorages, hres, hw, hrec]
        | containerArg ss => cases hok
        | litArg => cases hok

theorem fimRun_append (l1 l2 : List FxNode) (st : FimState) :
    fimRun (l1 ++ l2) st =
      match fimRun l1 st with
      | .ok st' => fimRun l2 st'
      | .error e => .error e := by
  induction l1 generalizing st with
  | nil => simp [fimRun]
  | cons n ns ih =>
    rw [List.cons_append, fimRun, fimRun]
    cases fimStep st n with
    | ok st1 => exact ih st1
    | error e => rfl

theorem placeholderStorages_append (l1 l2 : List FxNode) :
    placeholderStorages (l1 ++ l2) =
      placeholderStorages l1 ++ placeholderStorages l2 := by
  simp [placeholderStorages]

theorem placeholderStorages_of_no_ph (l : List FxNode)
    (hnp : ∀ s, FxNode.placeholder s ∉ l) :
    placeholderStorages l = [] := by
  induction l with
  | nil => rfl
  | cons n ns ih =>
    have hns : ∀ s, FxNode.placeholder s ∉ ns := fun s hs =>
      hnp s (List.mem_cons_of_mem _ hs)
    cases n with
    | placeholder s => exact absurd (List.mem_cons_self _ _) (hnp s)
    | callFunction g sc ar kw => simpa [placeholderStorages] using ih hns
    | otherNode => simpa [placeholderStorages] using ih hns

theorem writtenStorages_append (l1 l2 : List FxNode) :
    writtenStorages (l1 ++ l2) = writtenStorages l1 ++ writtenStorages l2 := by
  induction l1 with
  | nil => simp [writtenStorages]
  | cons n ns ih =>
    cases n <;> simp [writtenStorages, List.foldr_cons] <;>
      simp [writtenStorages] at ih <;> simp [ih, List.append_assoc]

theorem writtenStorages_of_ph (l : List FxNode)
    (hph : ∀ n ∈ l, ∃ s, n = FxNode.placeholder s) :
    writtenStorages l = [] := by
  induction l with
  | nil => rfl
  | cons n ns ih =>
    obtain ⟨s, rfl⟩ := hph n (List.mem_cons_self _ _)
    simpa [writtenStorages] using
      ih (fun n hn => hph n (List.mem_cons_of_mem _ hn))

/-- Processing a run of placeholder nodes succeeds, advances the input
index, leaves the mutated set alone, and extends the storage-to-indices map
by one entry per placeholder. -/
theorem fimRun_placeholders (phs : List FxNode)
    (hph : ∀ n ∈ phs, ∃ s, n = FxNode.placeholder s) :
    ∀ st : FimState, ∃ st', fimRun phs st = .ok st' ∧
      st'.input_idx = st.input_idx + phs.length ∧
      st'.mutated = st.mutated ∧
      (∀ s idx, idx ∈ st'.inputs s ↔
        (idx ∈ st.inputs s ∨
          ∃ k, k < (placeholderStorages phs).length ∧
            (placeholderStorages phs).getD k 0 = s ∧
            idx = st.input_idx + k)) := by
  induction phs with
  | nil =>
    intro st
    refine ⟨st, rfl, by simp, rfl, fun s idx => ?_⟩
    simp [placeholderStorages]
  | cons n ns ih =>
    intro st
    obtain ⟨s0, rfl⟩ := hph n (List.mem_cons_self _ _)
    obtain ⟨st', hrun, hidx, hmut, hmem⟩ :=
      ih (fun n hn => hph n (List.mem_cons_of_mem _ hn))
        ⟨fun s' => if s' = s0 then st.input_idx :: st.inputs s'
                   else st.inputs s',
         st.input_idx + 1, st.mutated⟩
    have hps : placeholderStorages (FxNode.placeholder s0 :: ns) =
        s0 :: placeholderStorages ns := by
      simp [placeholderStorages]
    refine ⟨st', ?_, ?_, hmut, fun s idx => ?_⟩
    · rw [fimRun]
      exact hrun
    · rw [hidx]
      simp
      omega
    · have hstep : ∀ j,
          (j ∈ (if s = s0 then st.input_idx :: st.inputs s
                else st.inputs s)) ↔
            ((s = s0 ∧ j = st.input_idx) ∨ j ∈ st.inputs s) := by
        intro j
        by_cases hs : s = s0
        · subst hs
          simp
        · simp [hs]
      rw [hmem s idx, hps]
      dsimp only
      rw [hstep idx]
      constructor
      · rintro ((⟨rfl, rfl⟩ | hin) | ⟨k, hk, hks, hkidx⟩)
        · exact Or.inr ⟨0, by simp, by simp, by simp⟩
        · exact Or.inl hin
        · refine Or.inr ⟨k + 1, ?_, ?_, ?_⟩
          · simpa using Nat.succ_lt_succ hk
          · simpa using hks
          · omega
      · rintro (hin | ⟨k, hk, hks, hkidx⟩)
        · exact Or.inl (Or.inr hin)
        · cases k with
          | zero =>
            simp only [List.getD_cons_zero] at hks
            exact Or.inl (Or.inl ⟨hks.symm, by omega⟩)
          | succ k' =>
            refine Or.inr ⟨k', ?_, ?_, ?_⟩
            · simpa using Nat.lt_of_succ_lt_succ hk
            · simpa using hks
            · omega

/-- Processing a run of non-placeholder nodes leaves the map and index
alone and accumulates exactly the placeholder-index sets of the written
storages. -/
theorem fimRun_calls (rest : List FxNode)
    (hnp : ∀ s, FxNode.placeholder s ∉ rest) :
    ∀ (st st' : FimState), fimRun rest st = .ok st' →
      st'.inputs = st.inputs ∧ st'.input_idx = st.input_idx ∧
      (∀ idx, idx ∈ st'.mutated ↔
        idx ∈ st.mutated ∨
          ∃ s ∈ writtenStorages rest, idx ∈ st.inputs s) := by
  induction rest with
  | nil =>
    intro st st' hok
    simp only [fimRun, Except.ok.injEq] at hok
    subst hok
    simp [writtenStorages]
  | cons n ns ih =>
    intro st st' hok
    have hns : ∀ s, FxNode.placeholder s ∉ ns := fun s hs =>
      hnp s (List.mem_cons_of_mem _ hs)
    rw [fimRun] at hok
    cases n with
    | placeholder s => exact absurd (List.mem_cons_self _ _) (hnp s)
    | otherNode =>
      obtain ⟨h1, h2, h3⟩ := ih hns st st' hok
      refine ⟨h1, h2, fun idx => ?_⟩
      rw [h3 idx]
      simp [writtenStorages]
    | callFunction g schema args kwargs =>
      cases g with
      | true =>
        simp only [fimStep, if_pos rfl] at hok
        obtain ⟨h1, h2, h3⟩ := ih hns st st' hok
        refine ⟨h1, h2, fun idx => ?_⟩
        rw [h3 idx]
        simp [writtenStorages]
      | false =>
        simp only [fimStep, Bool.false_eq_true, if_false] at hok
        cases hcw : collectWrites st.inputs args kwargs schema 0 st.mutated with
        | error e => rw [hcw] at hok; cases hok
        | ok m =>
          rw [hcw] at hok
          obtain ⟨h1, h2, h3⟩ := ih hns _ st' hok
          refine ⟨h1, h2, fun idx => ?_⟩
          rw [h3 idx]
          have hm := collectWrites_ok_eq st.inputs args kwargs schema 0
            st.mutated m hcw
          have hws : writtenStorages
              (FxNode.callFunction false schema args kwargs :: ns) =
              schemaWrittenStorages args kwargs schema 0 ++
                writtenStorages ns := by
            simp [writtenStorages]
          rw [hws, hm]
          dsimp only
          simp only [List.mem_append, List.mem_flatMap]
          constructor
          · rintro ((h | ⟨a, ha, hia⟩) | ⟨a, ha, hia⟩)
            · exact Or.inl h
            · exact Or.inr ⟨a, Or.inl ha, hia⟩
            · exact Or.inr ⟨a, Or.inr ha, hia⟩
          · rintro (h | ⟨a, ha | ha, hia⟩)
            · exact Or.inl (Or.inl h)
            · exact Or.inl (Or.inr ⟨a, ha, hia⟩)
            · exact Or.inr ⟨a, ha, hia⟩

/-- C9: for a graph whose placeholders precede its call nodes (the fx graph
invariant), a successful `find_input_mutations` returns exactly the set of
placeholder indices whose storage is passed as a top-level Node argument, at
a schema position whose alias annotation marks a write, to some
call_function node (getitem nodes excepted); tensors nested inside container
arguments are never inspected, so they never contribute an index.
`apply_cuda_graphs` computes this set once, before any call, and bakes it
into the wrapper, whose calls never change it. -/
theorem C9_find_input_mutations (phs rest : List FxNode) (m : List Nat)
    (hph : ∀ n ∈ phs, ∃ s, n = FxNode.placeholder s)
    (hnp : ∀ s, FxNode.placeholder s ∉ rest)
    (hok : find_input_mutations (phs ++ rest) = .ok m) :
    (∀ idx, idx ∈ m ↔
      (idx < (placeholderStorages (phs ++ rest)).length ∧
        (placeholderStorages (phs ++ rest)).getD idx 0 ∈
          writtenStorages (phs ++ rest))) ∧
    apply_cuda_graphs (phs ++ rest) = .ok (mkCudaGraphModule m) ∧
    (∀ (gm : GmSemantics) (st : CGMState) (args : List Storage)
        (h : Heap) (f : Nat),
      (cudaGraphModuleCall gm st args h f).state.mutated_inputs =
        st.mutated_inputs) := by
  have hok' := hok
  obtain ⟨st1, hrun1, hidx1, hmut1, hmem1⟩ :=
    fimRun_placeholders phs hph ⟨fun _ => [], 0, []⟩
  unfold find_input_mutations at hok
  rw [fimRun_append, hrun1] at hok
  dsimp only at hok
  refine ⟨?_, ?_, ?_⟩
  · cases hrun2 : fimRun rest st1 with
    | error e =>
      rw [hrun2] at hok
      cases hok
    | ok st2 =>
      rw [hrun2] at hok
      simp only [Except.ok.injEq] at hok
      obtain ⟨hi1, hi2, hm3⟩ := fimRun_calls rest hnp st1 st2 hrun2
      intro idx
      rw [placeholderStorages_append, placeholderStorages_of_no_ph rest hnp,
        List.append_nil, writtenStorages_append,
        writtenStorages_of_ph phs hph, List.nil_append]
      rw [← hok, hm3 idx]
      rw [hmut1]
      constructor
      · rintro (habs | ⟨s, hs, hin⟩)
        · simp at habs
        · rw [hmem1 s idx] at hin
          rcases hin with habs | ⟨k, hk, hks, hkidx⟩
          · simp at habs
          · subst hks
            have : idx = k := by simpa using hkidx
            subst this
            exact ⟨hk, hs⟩
      · rintro ⟨hlt, hmem⟩
        refine Or.inr ⟨(placeholderStorages phs).getD idx 0, hmem, ?_⟩
        rw [hmem1 _ idx]
        exact Or.inr ⟨idx, hlt, rfl, by simp⟩
  · unfold apply_cuda_graphs
    rw [hok']
  · intro gm st args h f
    cases hg : st.graph <;> cases hw : st.warmed_up <;>
      simp [cudaGraphModuleCall, hg, hw]

/-- C9 witness: a two-placeholder graph whose call node writes its first
argument (schema alias marks position 0 as written) yields exactly the
mutation set {0}. -/
theorem C9_find_input_mutations_witness :
    (∀ idx, idx ∈ [0] ↔
      (idx < (placeholderStorages
          ([FxNode.placeholder 10, FxNode.placeholder 11] ++
            [FxNode.callFunction false
              [⟨"self", true⟩, ⟨"other", false⟩]
              [FxArg.nodeArg 10, FxArg.nodeArg 11] []])).length ∧
        (placeholderStorages
          ([FxNode.placeholder 10, FxNode.placeholder 11] ++
            [FxNode.callFunction false
              [⟨"self", true⟩, ⟨"other", false⟩]
              [FxArg.nodeArg 10, FxArg.nodeArg 11] []])).getD idx 0 ∈
          writtenStorages
          ([FxNode.placeholder 10, FxNode.placeholder 11] ++
            [FxNode.callFunction false
              [⟨"self", true⟩, ⟨"other", false⟩]
              [FxArg.nodeArg 10, FxArg.nodeArg 11] []]))) ∧
    apply_cuda_graphs
        ([FxNode.placeholder 10, FxNode.placeholder 11] ++
          [FxNode.callFunction false
            [⟨"self", true⟩, ⟨"other", false⟩]
            [FxArg.nodeArg 10, FxArg.nodeArg 11] []]) =
      .ok (mkCudaGraphModule [0]) ∧
    (∀ (gm : GmSemantics) (st : CGMState) (args : List Storage)
        (h : Heap) (f : Nat),
      (cudaGraphModuleCall gm st args h f).state.mutated_inputs =
        st.mutated_inputs) :=
  C9_find_input_mutations
    [FxNode.placeholder 10, FxNode.placeholder 11]
    [FxNode.callFunction false [⟨"self", true⟩, ⟨"other", false⟩]
      [FxArg.nodeArg 10, FxArg.nodeArg 11] []] [0]
    (by
      intro n hn
      simp only [List.mem_cons, List.not_mem_nil, or_false] at hn
      rcases hn with rfl | rfl
      · exact ⟨10, rfl⟩
      · exact ⟨11, rfl⟩)
    (by
      intro s hs
      simp at hs)
    rfl

/-! ## C8: the captured-state call contract -/

theorem writeCell_same (h : Heap) (s : Storage) (v : Val) :
    writeCell h s v s = v := by
  simp [writeCell]

theorem writeCell_ne (h : Heap) (s : Storage) (v : Val) (s' : Storage)
    (hne : s' ≠ s) : writeCell h s v s' = h s' := by
  simp [writeCell, hne]

theorem writeMany_notin (ps : List (Storage × Val)) :
    ∀ (h : Heap) (s : Storage), s ∉ ps.map Prod.fst →
      writeMany h ps s = h s := by
  induction ps with
  | nil => intro h s _; rfl
  | cons p ps ih =>
    intro h s hs
    simp only [List.map_cons, List.mem_cons] at hs
    push_neg at hs
    rw [writeMany, List.foldl_cons]
    rw [show ps.foldl (fun h p => writeCell h p.1 p.2)
        (writeCell h p.1 p.2) = writeMany (writeCell h p.1 p.2) ps from rfl]
    rw [ih _ s hs.2]
    exact writeCell_ne h p.1 p.2 s hs.1

theorem writeMany_zip_getD (keys : List Storage) :
    ∀ (vals : List Val) (h : Heap) (i : Nat), keys.Nodup →
      i < keys.length → i < vals.length →
      writeMany h (keys.zip vals) (keys.getD i 0) = vals.getD i 0 := by
  induction keys with
  | nil => intro vals h i _ hik _; simp at hik
  | cons k ks ih =>
    intro vals h i hnd hik hiv
    cases vals with
    | nil => simp at hiv
    | cons v vs =>
      rw [List.zip_cons_cons, writeMany, List.foldl_cons]
      rw [show (ks.zip vs).foldl (fun h p => writeCell h p.1 p.2)
          (writeCell h k v) = writeMany (writeCell h k v) (ks.zip vs) from rfl]
      cases i with
      | zero =>
        simp only [List.getD_cons_zero]
        rw [writeMany_notin]
        · exact writeCell_same h k v
        · intro hmem
          rcases List.mem_map.mp hmem with ⟨⟨a, b⟩, hab, rfl⟩
          exact (List.nodup_cons.mp hnd).1 (List.of_mem_zip hab).1
      | succ i' =>
        simp only [List.getD_cons_succ]
        exact ih vs (writeCell h k v) i' (List.nodup_cons.mp hnd).2
          (Nat.lt_of_succ_lt_succ hik) (Nat.lt_of_succ_lt_succ hiv)

theorem copyInto_notin (dsts : List Storage) :
    ∀ (srcs : List Storage) (h : Heap) (s : Storage), s ∉ dsts →
      copyInto dsts srcs h s = h s := by
  induction dsts with
  | nil => intro srcs h s _; cases srcs <;> rfl
  | cons d ds ih =>
    intro srcs h s hs
    cases srcs with
    | nil => rfl
    | cons x xs =>
      simp only [List.mem_cons] at hs
      push_neg at hs
      rw [copyInto, ih xs _ s hs.2]
      exact writeCell_ne h d (h x) s hs.1

theorem copyInto_getD (dsts : List Storage) :
    ∀ (srcs : List Storage) (h : Heap) (i : Nat), dsts.Nodup →
      (∀ x ∈ srcs, x ∉ dsts) → i < dsts.length → i < srcs.length →
      copyInto dsts srcs h (dsts.getD i 0) = h (srcs.getD i 0) := by
  induction dsts with
  | nil => intro srcs h i _ _ hid _; simp at hid
  | cons d ds ih =>
    intro srcs h i hnd hdisj hid his
    cases srcs with
    | nil => simp at his
    | cons x xs =>
      rw [copyInto]
      cases i with
      | zero =>
        simp only [List.getD_cons_zero]
        rw [copyInto_notin ds xs _ d (List.nodup_cons.mp hnd).1]
        exact writeCell_same h d (h x)
      | succ i' =>
        simp only [List.getD_cons_succ]
        have hxs : ∀ y ∈ xs, y ∉ ds := fun y hy =>
          fun hmem => hdisj y (List.mem_cons_of_mem _ hy)
            (List.mem_cons_of_mem _ hmem)
        rw [ih xs (writeCell h d (h x)) i' (List.nodup_cons.mp hnd).2 hxs
          (Nat.lt_of_succ_lt_succ hid) (Nat.lt_of_succ_lt_succ his)]
        refine writeCell_ne h d (h x) _ ?_
        intro heq
        have hx : xs.getD i' 0 ∈ xs := by
          rw [List.getD_eq_getElem _ _ (Nat.lt_of_succ_lt_succ his)]
          exact List.getElem_mem _
        exact hdisj _ (List.mem_cons_of_mem _ hx)
          (heq ▸ List.mem_cons_self _ _)

theorem replayOutWrites_keys (outs : List OutElem) :
    ∀ (vals : List Val) (p : Storage × Val), p ∈ replayOutWrites outs vals →
      p.1 ∈ tensorStorages outs := by
  induction outs with
  | nil => intro vals p hp; cases vals <;> simp [replayOutWrites] at hp
  | cons e rest ih =>
    intro vals p hp
    cases e with
    | tensorElem s0 =>
      cases vals with
      | nil => simp [replayOutWrites] at hp
      | cons v vs =>
        rw [replayOutWrites] at hp
        rcases List.mem_cons.mp hp with rfl | hp
        · simp [tensorStorages]
        · simp only [tensorStorages, List.filterMap_cons]
          exact List.mem_cons_of_mem _ (ih vs p hp)
    | scalarElem v0 =>
      cases vals with
      | nil => simp [replayOutWrites] at hp
      | cons v vs =>
        rw [replayOutWrites] at hp
        simpa [tensorStorages] using ih vs p hp

theorem writeMany_replayOut_getD (outs : List OutElem) :
    ∀ (vals : List Val) (h : Heap) (k : Nat) (s : Storage),
      (tensorStorages outs).Nodup →
      outs.get? k = some (OutElem.tensorElem s) → k < vals.length →
      writeMany h (replayOutWrites outs vals) s = vals.getD k 0 := by
  induction outs with
  | nil => intro vals h k s _ hk _; simp at hk
  | cons e rest ih =>
    intro vals h k s hnd hk hkv
    cases vals with
    | nil => simp at hkv
    | cons v vs =>
      cases e with
      | tensorElem s0 =>
        rw [replayOutWrites, writeMany, List.foldl_cons]
        rw [show (replayOutWrites rest vs).foldl
            (fun h p => writeCell h p.1 p.2) (writeCell h s0 v) =
            writeMany (writeCell h s0 v) (replayOutWrites rest vs) from rfl]
        have hnd' := hnd
        simp only [tensorStorages, List.filterMap_cons, List.nodup_cons] at hnd'
        cases k with
        | zero =>
          simp only [List.get?_cons_zero, Option.some.injEq,
            OutElem.tensorElem.injEq] at hk
          subst hk
          rw [writeMany_notin]
          · exact writeCell_same h s0 v
          · intro hmem
            rcases List.mem_map.mp hmem with ⟨p, hp, rfl⟩
            exact hnd'.1 (replayOutWrites_keys rest vs p hp)
        | succ k' =>
          simp only [List.get?_cons_succ] at hk
          rw [ih vs (writeCell h s0 v) k' s hnd'.2 hk
            (Nat.lt_of_succ_lt_succ hkv)]
          simp
      | scalarElem v0 =>
        cases k with
        | zero => simp at hk
        | succ k' =>
          simp only [List.get?_cons_succ] at hk
          rw [replayOutWrites]
          have hnd' : (tensorStorages rest).Nodup := by
            simpa [tensorStorages] using hnd
          rw [ih vs h k' s hnd' hk (Nat.lt_of_succ_lt_succ hkv)]
          simp

theorem get?_of_lt (l : List Nat) (n : Nat) (hn : n < l.length) :
    l.get? n = some (l.getD n 0) := by
  rw [List.getD_eq_getElem _ _ hn, List.get?_eq_getElem?,
    List.getElem?_eq_getElem hn]

theorem getD_mem_of_lt (l : List Nat) (i : Nat) (hi : i < l.length) :
    l.getD i 0 ∈ l := by
  rw [List.getD_eq_getElem _ _ hi]
  exact List.getElem_mem _

theorem lt_length_of_get? (l : List OutElem) (n : Nat) (a : OutElem)
    (h : l.get? n = some a) : n < l.length := by
  by_contra hn
  rw [List.get?_eq_none.mpr (Nat.le_of_not_lt hn)] at h
  cases h

theorem getD_inj_of_nodup (l : List Nat) (hnd : l.Nodup) (i j : Nat)
    (hi : i < l.length) (hj : j < l.length)
    (he : l.getD i 0 = l.getD j 0) : i = j := by
  rw [List.getD_eq_getElem _ _ hi, List.getD_eq_getElem _ _ hj] at he
  exact (List.Nodup.getElem_inj_iff hnd).mp he

theorem copyBack_notin (idxs : List Nat) (args statics : List Storage) :
    ∀ (h : Heap) (s : Storage),
      (∀ i ∈ idxs, ∀ a, args.get? i = some a → a ≠ s) →
      copyBack idxs args statics h s = h s := by
  induction idxs with
  | nil => intro h s _; rfl
  | cons j js ih =>
    intro h s hno
    rw [copyBack, List.foldl_cons]
    rw [show js.foldl _ _ = copyBack js args statics
        (match args.get? j, statics.get? j with
         | some a, some st0 => writeCell h a (h st0)
         | _, _ => h) from rfl]
    rw [ih _ s (fun i hi => hno i (List.mem_cons_of_mem _ hi))]
    cases hga : args.get? j with
    | none => cases statics.get? j <;> rfl
    | some a =>
      cases hgs : statics.get? j with
      | none => rfl
      | some st0 =>
        exact writeCell_ne h a (h st0) s
          (Ne.symm (hno j (List.mem_cons_self _ _) a hga))

theorem copyBack_getD (idxs : List Nat) (args statics : List Storage) :
    ∀ (h : Heap), args.Nodup → (∀ x ∈ statics, x ∉ args) →
      (∀ i ∈ idxs, i < args.length ∧ i < statics.length) →
      ∀ i ∈ idxs,
        copyBack idxs args statics h (args.getD i 0) =
          h (statics.getD i 0) := by
  induction idxs with
  | nil => intro h _ _ _ i hi; cases hi
  | cons j js ih =>
    intro h hndA hdisj hb i hi
    obtain ⟨hja, hjs⟩ := hb j (List.mem_cons_self _ _)
    have hga := get?_of_lt args j hja
    have hgs := get?_of_lt statics j hjs
    have hstep : copyBack (j :: js) args statics h =
        copyBack js args statics
          (writeCell h (args.getD j 0) (h (statics.getD j 0))) := by
      rw [copyBack, List.foldl_cons, hga, hgs]
      rfl
    rw [hstep]
    by_cases hjs' : i ∈ js
    · rw [ih _ hndA hdisj (fun i' hi' => hb i' (List.mem_cons_of_mem _ hi'))
        i hjs']
      obtain ⟨hia, his⟩ := hb i (List.mem_cons_of_mem _ hjs')
      refine writeCell_ne _ _ _ _ ?_
      intro heq
      exact hdisj _ (getD_mem_of_lt statics i his)
        (heq ▸ getD_mem_of_lt args j hja)
    · have hij : i = j := by
        rcases List.mem_cons.mp hi with rfl | hmem
        · rfl
        · exact absurd hmem hjs'
      subst hij
      rw [copyBack_notin js args statics _ (args.getD i 0) ?_]
      · exact writeCell_same _ _ _
      · intro i' hi' a hga'
        obtain ⟨hia', _⟩ := hb i' (List.mem_cons_of_mem _ hi')
        rw [get?_of_lt args i' hia'] at hga'
        cases hga'
        intro heq
        exact hjs' (getD_inj_of_nodup args hndA i' i hia' hja heq ▸ hi')

theorem cloneOutputs_spec (outs : List OutElem) :
    ∀ (h : Heap) (f : Nat),
      (cloneOutputs outs h f).1.length = outs.length ∧
      f ≤ (cloneOutputs outs h f).2.2 ∧
      (∀ s, s < f → (cloneOutputs outs h f).2.1 s = h s) ∧
      (∀ k v, outs.get? k = some (OutElem.scalarElem v) →
        (cloneOutputs outs h f).1.get? k = some (OutElem.scalarElem v)) ∧
      (∀ k s, outs.get? k = some (OutElem.tensorElem s) → s < f →
        ∃ t, (cloneOutputs outs h f).1.get? k = some (OutElem.tensorElem t) ∧
          f ≤ t ∧ (cloneOutputs outs h f).2.1 t = h s) := by
  induction outs with
  | nil =>
    intro h f
    refine ⟨rfl, le_refl f, fun s _ => rfl, fun k v hk => ?_,
      fun k s hk hs => ?_⟩
    · simp at hk
    · simp at hk
  | cons e rest ih =>
    intro h f
    cases e with
    | tensorElem s0 =>
      obtain ⟨hl, hf, hpres, hsc, htn⟩ := ih (writeCell h f (h s0)) (f + 1)
      refine ⟨?_, ?_, ?_, ?_, ?_⟩
      · simp only [cloneOutputs]
        simpa using hl
      · simp only [cloneOutputs]
        exact le_trans (Nat.le_succ f) hf
      · intro s hs
        simp only [cloneOutputs]
        rw [hpres s (Nat.lt_succ_of_lt hs)]
        exact writeCell_ne h f (h s0) s (Nat.ne_of_lt hs)
      · intro k v hk
        cases k with
        | zero => simp at hk
        | succ k' =>
          simp only [List.get?_cons_succ] at hk
          simp only [cloneOutputs, List.get?_cons_succ]
          exact hsc k' v hk
      · intro k s hk hs
        cases k with
        | zero =>
          simp only [List.get?_cons_zero, Option.some.injEq,
            OutElem.tensorElem.injEq] at hk
          subst hk
          refine ⟨f, by simp [cloneOutputs], le_refl f, ?_⟩
          simp only [cloneOutputs]
          rw [hpres f (Nat.lt_succ_self f)]
          exact writeCell_same h f _
        | succ k' =>
          simp only [List.get?_cons_succ] at hk
          obtain ⟨t, hget, hft, hval⟩ := htn k' s hk (Nat.lt_succ_of_lt hs)
          refine ⟨t, ?_, le_trans (Nat.le_succ f) hft, ?_⟩
          · simp only [cloneOutputs, List.get?_cons_succ]
            exact hget
          · simp only [cloneOutputs]
            rw [hval]
            exact writeCell_ne h f (h s0) s (Nat.ne_of_lt hs)
    | scalarElem v0 =>
      obtain ⟨hl, hf, hpres, hsc, htn⟩ := ih h f
      refine ⟨?_, ?_, ?_, ?_, ?_⟩
      · simp only [cloneOutputs]
        simpa using hl
      · simp only [cloneOutputs]
        exact hf
      · intro s hs
        simp only [cloneOutputs]
        exact hpres s hs
      · intro k v hk
        cases k with
        | zero =>
          simp only [List.get?_cons_zero, Option.some.injEq] at hk
          simp [cloneOutputs, hk]
        | succ k' =>
          simp only [List.get?_cons_succ] at hk
          simp only [cloneOutputs, List.get?_cons_succ]
          exact hsc k' v hk
      · intro k s hk hs
        cases k with
        | zero => simp at hk
        | succ k' =>
          simp only [List.get?_cons_succ] at hk
          obtain ⟨t, hget, hft, hval⟩ := htn k' s hk hs
          refine ⟨t, ?_, hft, ?_⟩
          · simp only [cloneOutputs, List.get?_cons_succ]
            exact hget
          · simp only [cloneOutputs]
            exact hval

/-- C8: for every call of a CudaGraphModule in the captured state (with the
capture-time separation invariants: static buffers are distinct storages,
disjoint from the caller's argument storages, and every live storage is
below the allocation counter): each argument is copied into the
corresponding static input slot before replay, after the call every mutated
input index has the caller's argument holding the same value as the static
input slot it was copied back from, arguments outside the mutated set are
not written to, and the returned value is a position-wise tree of clones of
the static outputs — non-tensor leaves passed through, tensor leaves fresh
storages that alias neither the static outputs, the static inputs, nor the
arguments while carrying the same value as the static output buffer. -/
theorem C8_captured_replay_contract
    (gm : GmSemantics) (st : CGMState) (args : List Storage) (h : Heap)
    (f : Nat)
    (hg : st.graph = true)
    (hlen : args.length = st.static_inputs.length)
    (hndS : st.static_inputs.Nodup)
    (hndA : args.Nodup)
    (hdisjAS : ∀ a ∈ args, a ∉ st.static_inputs)
    (hdisjAO : ∀ a ∈ args, a ∉ tensorStorages st.static_outputs)
    (hdisjSO : ∀ s ∈ st.static_inputs, s ∉ tensorStorages st.static_outputs)
    (hfA : ∀ a ∈ args, a < f)
    (hfS : ∀ s ∈ st.static_inputs, s < f)
    (hfO : ∀ s ∈ tensorStorages st.static_outputs, s < f)
    (hmb : ∀ i ∈ st.mutated_inputs, i < args.length)
    (hinLen : (gm.inMutVals (args.map h)).length = args.length) :
    (∀ i, i < args.length →
      copyInto st.static_inputs args h (st.static_inputs.getD i 0) =
        h (args.getD i 0)) ∧
    (∀ i ∈ st.mutated_inputs,
      (cudaGraphModuleCall gm st args h f).heap (args.getD i 0) =
        (cudaGraphModuleCall gm st args h f).heap
          (st.static_inputs.getD i 0)) ∧
    (∀ j, j < args.length → j ∉ st.mutated_inputs →
      (cudaGraphModuleCall gm st args h f).heap (args.getD j 0) =
        h (args.getD j 0)) ∧
    ((cudaGraphModuleCall gm st args h f).outputs.length =
      st.static_outputs.length) ∧
    (∀ k v, st.static_outputs.get? k = some (OutElem.scalarElem v) →
      (cudaGraphModuleCall gm st args h f).outputs.get? k =
        some (OutElem.scalarElem v)) ∧
    (∀ k s, st.static_outputs.get? k = some (OutElem.tensorElem s) →
      ∃ t, (cudaGraphModuleCall gm st args h f).outputs.get? k =
          some (OutElem.tensorElem t) ∧
        t ∉ tensorStorages st.static_outputs ∧ t ∉ st.static_inputs ∧
        t ∉ args ∧
        (cudaGraphModuleCall gm st args h f).heap t =
          (cudaGraphModuleCall gm st args h f).heap s) := by
  have hdisjSA : ∀ x ∈ st.static_inputs, x ∉ args := fun x hx hmem =>
    hdisjAS x hmem hx
  -- (A) the copy-in stage
  have hfwd : ∀ i, i < args.length →
      copyInto st.static_inputs args h (st.static_inputs.getD i 0) =
        h (args.getD i 0) := by
    intro i hi
    exact copyInto_getD st.static_inputs args h i hndS hdisjAS
      (hlen ▸ hi) hi
  set h1 := copyInto st.static_inputs args h with hh1
  set h2 := replayGraph gm st.static_inputs st.static_outputs h1 with hh2
  set h3 := copyBack st.mutated_inputs args st.static_inputs h2 with hh3
  -- the replayed computation reads exactly the caller's argument values
  have hvals : st.static_inputs.map h1 = args.map h := by
    apply List.ext_getElem (by rw [List.length_map, List.length_map, hlen])
    intro i hi1 hi2
    have hiS : i < st.static_inputs.length := by simpa using hi1
    have hiA : i < args.length := by simpa using hi2
    rw [List.getElem_map, List.getElem_map,
      ← List.getD_eq_getElem st.static_inputs 0 hiS,
      ← List.getD_eq_getElem args 0 hiA]
    exact hfwd i hiA
  -- h2 at the static input slots: the post-replay mutated input values
  have hstat2 : ∀ i, i < args.length →
      h2 (st.static_inputs.getD i 0) =
        (gm.inMutVals (args.map h)).getD i 0 := by
    intro i hi
    rw [hh2]
    simp only [replayGraph]
    rw [hvals, writeMany_notin]
    · exact writeMany_zip_getD st.static_inputs (gm.inMutVals (args.map h))
        h1 i hndS (hlen ▸ hi) (by rw [hinLen]; exact hi)
    · intro hmem
      rcases List.mem_map.mp hmem with ⟨p, hp, hpe⟩
      exact hdisjSO _ (getD_mem_of_lt st.static_inputs i (hlen ▸ hi))
        (hpe ▸ replayOutWrites_keys st.static_outputs _ p hp)
  -- h2 elsewhere: untouched by the replay
  have hother2 : ∀ s, s ∉ st.static_inputs →
      s ∉ tensorStorages st.static_outputs → h2 s = h1 s := by
    intro s hs1 hs2
    rw [hh2]
    simp only [replayGraph]
    rw [writeMany_notin, writeMany_notin]
    · intro hmem
      rcases List.mem_map.mp hmem with ⟨p, hp, rfl⟩
      exact hs1 (List.of_mem_zip hp).1
    · intro hmem
      rcases List.mem_map.mp hmem with ⟨p, hp, rfl⟩
      exact hs2 (replayOutWrites_keys st.static_outputs _ p hp)
  -- h3: the mutated-input copy-back
  have hmutback : ∀ i ∈ st.mutated_inputs,
      h3 (args.getD i 0) = h2 (st.static_inputs.getD i 0) := by
    intro i hi
    rw [hh3]
    exact copyBack_getD st.mutated_inputs args st.static_inputs h2 hndA
      hdisjSA (fun i' hi' => ⟨hmb i' hi', hlen ▸ hmb i' hi'⟩) i hi
  have hnotback : ∀ s : Storage,
      (∀ i ∈ st.mutated_inputs, ∀ a, args.get? i = some a → a ≠ s) →
      h3 s = h2 s := by
    intro s hno
    rw [hh3]
    exact copyBack_notin st.mutated_inputs args st.static_inputs h2 s hno
  obtain ⟨hcl, hcf, hcpres, hcsc, hctn⟩ :=
    cloneOutputs_spec st.static_outputs h3 f
  -- reduce the call to its replay branch
  have hredH : (cudaGraphModuleCall gm st args h f).heap =
      (cloneOutputs st.static_outputs h3 f).2.1 := by
    simp only [cudaGraphModuleCall]
    rw [if_pos hg]
  have hredO : (cudaGraphModuleCall gm st args h f).outputs =
      (cloneOutputs st.static_outputs h3 f).1 := by
    simp only [cudaGraphModuleCall]
    rw [if_pos hg]
  refine ⟨hfwd, ?_, ?_, ?_, ?_, ?_⟩
  · -- mutated inputs: the argument now holds the static slot's value
    intro i hi
    have hia := hmb i hi
    rw [hredH, hcpres _ (hfA _ (getD_mem_of_lt args i hia)),
      hcpres _ (hfS _ (getD_mem_of_lt st.static_inputs i (hlen ▸ hia)))]
    rw [hmutback i hi, hnotback _ ?_]
    intro i' hi' a hga'
    rw [get?_of_lt args i' (hmb i' hi')] at hga'
    cases hga'
    intro heq
    exact hdisjSA _ (getD_mem_of_lt st.static_inputs i (hlen ▸ hia))
      (heq ▸ getD_mem_of_lt args i' (hmb i' hi'))
  · -- non-mutated arguments are never written
    intro j hj hjm
    have hjmem := getD_mem_of_lt args j hj
    rw [hredH, hcpres _ (hfA _ hjmem), hnotback _ ?_, hother2 _
      (hdisjAS _ hjmem) (hdisjAO _ hjmem), hh1,
      copyInto_notin st.static_inputs args h _ (hdisjAS _ hjmem)]
    intro i hi a hga
    rw [get?_of_lt args i (hmb i hi)] at hga
    cases hga
    intro heq
    exact hjm (getD_inj_of_nodup args hndA j i hj (hmb i hi) heq.symm ▸ hi)
  · rw [hredO, hcl]
  · intro k v hk
    rw [hredO]
    exact hcsc k v hk
  · intro k s hk
    have hsmem : s ∈ tensorStorages st.static_outputs :=
      List.mem_filterMap.mpr ⟨OutElem.tensorElem s, List.get?_mem hk, rfl⟩
    have hsf : s < f := hfO s hsmem
    obtain ⟨t, hget, hft, hval⟩ := hctn k s hk hsf
    refine ⟨t, ?_, ?_, ?_, ?_, ?_⟩
    · rw [hredO]; exact hget
    · intro hmem
      exact absurd (hfO t hmem) (Nat.not_lt.mpr hft)
    · intro hmem
      exact absurd (hfS t hmem) (Nat.not_lt.mpr hft)
    · intro hmem
      exact absurd (hfA t hmem) (Nat.not_lt.mpr hft)
    · rw [hredH, hval, hcpres s hsf]

/-- C8 witness: the contract instantiated at a concrete captured wrapper
(arguments at storages 20 and 21, fresh counter 100, identity heap). -/
theorem C8_captured_replay_contract_witness :
    (∀ i, i < ([20, 21] : List Storage).length →
      copyInto cgW_st.static_inputs [20, 21] idHeap
          (cgW_st.static_inputs.getD i 0) =
        idHeap (([20, 21] : List Storage).getD i 0)) ∧
    (∀ i ∈ cgW_st.mutated_inputs,
      (cudaGraphModuleCall cgW_gm cgW_st [20, 21] idHeap 100).heap
          (([20, 21] : List Storage).getD i 0) =
        (cudaGraphModuleCall cgW_gm cgW_st [20, 21] idHeap 100).heap
          (cgW_st.static_inputs.getD i 0)) ∧
    (∀ j, j < ([20, 21] : List Storage).length →
      j ∉ cgW_st.mutated_inputs →
      (cudaGraphModuleCall cgW_gm cgW_st [20, 21] idHeap 100).heap
          (([20, 21] : List Storage).getD j 0) =
        idHeap (([20, 21] : List Storage).getD j 0)) ∧
    ((cudaGraphModuleCall cgW_gm cgW_st [20, 21] idHeap 100).outputs.length =
      cgW_st.static_outputs.length) ∧
    (∀ k v, cgW_st.static_outputs.get? k = some (OutElem.scalarElem v) →
      (cudaGraphModuleCall cgW_gm cgW_st [20, 21] idHeap 100).outputs.get? k =
        some (OutElem.scalarElem v)) ∧
    (∀ k s, cgW_st.static_outputs.get? k = some (OutElem.tensorElem s) →
      ∃ t, (cudaGraphModuleCall cgW_gm cgW_st [20, 21] idHeap
            100).outputs.get? k = some (OutElem.tensorElem t) ∧
        t ∉ tensorStorages cgW_st.static_outputs ∧
        t ∉ cgW_st.static_inputs ∧ t ∉ ([20, 21] : List Storage) ∧
        (cudaGraphModuleCall cgW_gm cgW_st [20, 21] idHeap 100).heap t =
          (cudaGraphModuleCall cgW_gm cgW_st [20, 21] idHeap 100).heap s) :=
  C8_captured_replay_contract cgW_gm cgW_st [20, 21] idHeap 100
    rfl rfl (by decide) (by decide) (by decide) (by decide) (by decide)
    (by decide) (by decide) (by decide) (by decide) rfl

end TorchSpec
